import Mathlib

/-!
Verification of the Soniox transcription provider (`@ai-sdk/soniox`).

The repository contains two revisions of the transcription model source:
* `src/unnamed/part_003` ("core revision"): the orchestration with the poll
  timeout, the `finally` cleanup via `tryDeleteResource`, and
  `getLanguageFromTokens`.
* `src/packages/soniox/src/soniox-transcription-model.ts` ("named revision"):
  the audio-source resolution (`audioUrl` / `fileId` provider options and the
  mutual-exclusion check) without timeout or cleanup.

Shared data (tokens, segments, provider options, request bodies) is embedded
once; each revision's `doGenerate` is embedded as an executable interpreter
over an environment that supplies the responses of the remote Soniox API.
Times and other JSON numbers are modelled as rationals, so `start_ms / 1000`
is exact. JavaScript `Map` insertion-order iteration is modelled by
association lists where `set` updates in place and appends fresh keys.
-/

namespace Soniox

/-- A value that may be a JSON number or a string (the `speaker` field). -/
inductive SpeakerVal
  | num (n : Rat)
  | str (s : String)
deriving DecidableEq

/-- One transcript token, from `sonioxTranscriptResponseSchema` /
`SonioxTranscriptToken`.  `none` stands for JS `null` or `undefined`. -/
structure SonioxToken where
  text : String
  start_ms : Option Rat := none
  end_ms : Option Rat := none
  confidence : Option Rat := none
  speaker : Option SpeakerVal := none
  language : Option String := none
  translation_status : Option String := none
deriving DecidableEq

/-- A time-aligned segment of the normalized result. -/
structure Segment where
  text : String
  startSecond : Rat
  endSecond : Rat
deriving DecidableEq

/-- `buildSegments` of the transcription model: keep the tokens whose
`start_ms` and `end_ms` are both numbers (`typeof ... === 'number'`), map
millisecond times to seconds.  Identical in both source revisions. -/
def buildSegments : Option (List SonioxToken) → List Segment
  | none => []
  | some tokens =>
    (tokens.filter fun t => t.start_ms.isSome && t.end_ms.isSome).map fun t =>
      { text := t.text
        startSecond := t.start_ms.getD 0 / 1000
        endSecond := t.end_ms.getD 0 / 1000 }

/-- `const language = token.language ?? undefined; if (!language) continue;`
— the language tag of a token as seen by the tally loop: `null`, `undefined`
and the falsy empty string are all skipped. -/
def normTag (t : SonioxToken) : Option String :=
  match t.language with
  | none => none
  | some l => if l = "" then none else some l

/-- `counts.set(language, (counts.get(language) ?? 0) + 1)` on a JS `Map`
modelled as an association list: an existing key is bumped in place, a fresh
key is appended (JS `Map` iteration order is insertion order). -/
def setCount : List (String × Nat) → String → List (String × Nat)
  | [], l => [(l, 1)]
  | (k, v) :: rest, l =>
    if k = l then (k, v + 1) :: rest else (k, v) :: setCount rest l

/-- The `for (const token of tokens)` tally loop of `getLanguageFromTokens`. -/
def tallyAux : List (String × Nat) → List SonioxToken → List (String × Nat)
  | counts, [] => counts
  | counts, t :: ts =>
    match normTag t with
    | none => tallyAux counts ts
    | some l => tallyAux (setCount counts l) ts

/-- The `for (const [language, count] of counts)` selection loop:
`if (count > bestCount)` replaces the running best. -/
def pickAux : Option String → Nat → List (String × Nat) → Option String
  | best, _, [] => best
  | best, bestCount, (l, c) :: rest =>
    if bestCount < c then pickAux (some l) c rest else pickAux best bestCount rest

/-- `getLanguageFromTokens` of the core revision (`src/unnamed/part_003`):
most common non-empty token language, first-seen tag winning ties. -/
def getLanguageFromTokens : Option (List SonioxToken) → Option String
  | none => none
  | some tokens => pickAux none 0 (tallyAux [] tokens)

/-! ## Provider options and request body

From `sonioxTranscriptionProviderOptionsSchema` (the options file) and
`SonioxCreateTranscriptionRequest` (`soniox-api-types.ts`).  The options are
the parsed view: the zod `.default(true)` on the two auto-delete flags makes
them plain booleans after parsing. -/

/-- `context` in its request form (`SonioxContext`). -/
inductive SonioxContext
  | str (s : String)
  | obj (general : Option (List (String × String))) (text : Option String)
      (terms : Option (List String)) (translation_terms : Option (List (String × String)))
deriving DecidableEq

/-- `translation` in its request form (`SonioxTranslation`). -/
inductive SonioxTranslation
  | one_way (target_language : String)
  | two_way (language_a : String) (language_b : String)
deriving DecidableEq

/-- Parsed `providerOptions.soniox` (camelCase side of the schema). -/
structure SonioxProviderOptions where
  audioUrl : Option String := none
  fileId : Option String := none
  languageHints : Option (List String) := none
  enableLanguageIdentification : Option Bool := none
  enableSpeakerDiarization : Option Bool := none
  context : Option SonioxContext := none
  clientReferenceId : Option String := none
  webhookUrl : Option String := none
  webhookAuthHeaderName : Option String := none
  webhookAuthHeaderValue : Option String := none
  translation : Option SonioxTranslation := none
  autoDeleteTranscription : Bool := true
  autoDeleteFile : Bool := true
deriving DecidableEq

/-- `mapContext`: options-level context to request-level context.  With the
camelCase/snake_case renaming folded into one type this is the identity on
present values. -/
def mapContext : Option SonioxContext → Option SonioxContext
  | none => none
  | some c => some c

/-- `mapTranslation`: options-level translation to request-level. -/
def mapTranslation : Option SonioxTranslation → Option SonioxTranslation
  | none => none
  | some t => some t

/-- The JSON body of `POST /v1/transcriptions`
(`SonioxCreateTranscriptionRequest`). -/
structure CreateBody where
  model : String
  audio_url : Option String := none
  file_id : Option String := none
  language_hints : Option (List String) := none
  enable_language_identification : Option Bool := none
  enable_speaker_diarization : Option Bool := none
  context : Option SonioxContext := none
  client_reference_id : Option String := none
  webhook_url : Option String := none
  webhook_auth_header_name : Option String := none
  webhook_auth_header_value : Option String := none
  translation : Option SonioxTranslation := none
deriving DecidableEq

/-! ## Remote API responses -/

/-- `sonioxCreateTranscriptionResponseSchema`. -/
structure CreateResponse where
  id : String
  status : Option String := none
deriving DecidableEq

/-- `sonioxTranscriptionStatusResponseSchema`. -/
structure StatusResponse where
  id : String
  status : String
  audio_duration_ms : Option Rat := none
  error_message : Option String := none
deriving DecidableEq

/-- `sonioxTranscriptResponseSchema`. -/
structure TranscriptResponse where
  id : String
  text : Option String := none
  tokens : Option (List SonioxToken) := none
deriving DecidableEq

/-- A non-success outcome of one API call: the message produced by
`sonioxFailedResponseHandler` (or the transport failure itself). -/
structure ApiError where
  message : String
deriving DecidableEq

/-- One HTTP request issued by the pipeline, with the information the claims
are about.  `withAbortSignal` records whether the call site passes
`options.abortSignal` to the HTTP helper (`tryDeleteResource` uses a bare
`fetch` without it). -/
inductive Request
  | uploadFile (withAbortSignal : Bool)
  | createTranscription (body : CreateBody) (withAbortSignal : Bool)
  | getStatus (transcriptionId : String) (withAbortSignal : Bool)
  | getTranscript (transcriptionId : String) (withAbortSignal : Bool)
  | deleteTranscription (transcriptionId : String) (withAbortSignal : Bool)
  | deleteFile (fileId : String) (withAbortSignal : Bool)
deriving DecidableEq

/-- A warning pushed into the result's warning list
(`{ type: 'other', message }`). -/
structure Warning where
  type : String
  message : String
deriving DecidableEq

/-- The environment of one `doGenerate` call: what the remote service and the
caller's abort signal / clock do.  Poll responses, elapsed time
(`Date.now() - startTime`) and the abort flag are indexed by the poll
iteration at whose top they are observed. -/
structure Env where
  uploadResult : Except ApiError String
  submitResult : Except ApiError CreateResponse
  pollResults : Nat → Except ApiError StatusResponse
  transcriptResult : Except ApiError TranscriptResponse
  deleteTranscriptionResult : Except String Unit
  deleteFileResult : Except String Unit
  elapsedMsAt : Nat → Nat
  abortedAt : Nat → Bool

/-- The normalized transcription result (the fields the claims concern;
`response` metadata — timestamp, headers, raw body — is opaque passthrough
and not modelled).  `metadataTokens` is `providerMetadata.soniox.tokens`. -/
structure TranscriptionResult where
  text : String
  segments : List Segment
  language : Option String
  durationInSeconds : Option Rat
  warnings : List Warning
  metadataTokens : List SonioxToken
deriving DecidableEq

/-- The error kinds a call can surface. -/
inductive Failure
  | transport (e : ApiError)
  | pollTimedOut (lastStatus : Option StatusResponse)
  | jobFailed (message : String) (cause : StatusResponse)
  | aborted (message : String)
  | outOfFuel
deriving DecidableEq

end Soniox

namespace SonioxCore

/-! ## Core revision (`src/unnamed/part_003`)

`doGenerate` with the poll timeout, the `finally` cleanup and language
detection.  This revision ignores `audioUrl` / `fileId` and always uploads.
`Failure.outOfFuel` is an artifact of the bounded model of the unbounded
`while (true)` loop, never reached under the hypotheses of the theorems. -/

open Soniox

/-- `const timeoutMs = 3 * 60 * 1000`. -/
def timeoutMs : Nat := 3 * 60 * 1000

/-- Outcome of the poll loop. -/
inductive PollOutcome
  | completed (status : StatusResponse)
  | failed (f : Failure)
  | fuelExhausted
deriving DecidableEq

/-- The `while (true)` poll loop of the core revision.  At the top of each
iteration: the wall-clock timeout is checked first
(`Date.now() - startTime > timeoutMs`), then the abort signal, then
`GET /v1/transcriptions/{id}` is issued.  `last` is the `statusResponse`
variable (the last observed status, `none` before the first response).
`delay(pollingInterval)` has no observable effect beyond the passage of time
recorded in `elapsedMsAt`. -/
def pollLoop (env : Env) (tid : String) : Nat → Option StatusResponse → Nat →
    PollOutcome × List Request
  | _, _, 0 => (.fuelExhausted, [])
  | iter, last, fuel + 1 =>
    if timeoutMs < env.elapsedMsAt iter then
      (.failed (.pollTimedOut last), [])
    else if env.abortedAt iter then
      (.failed (.aborted "Transcription request was aborted"), [])
    else
      match env.pollResults iter with
      | .error e => (.failed (.transport e), [.getStatus tid true])
      | .ok s =>
        if s.status = "completed" then
          (.completed s, [.getStatus tid true])
        else if s.status = "error" then
          (.failed (.jobFailed
              ("Transcription failed: " ++ s.error_message.getD "Unknown error") s),
            [.getStatus tid true])
        else
          let rest := pollLoop env tid (iter + 1) (some s) fuel
          (rest.1, .getStatus tid true :: rest.2)

/-- The submission body built by the core revision: always `file_id`, never
`audio_url` (this revision has no `audioUrl` option handling). -/
def coreBody (modelId : String) (opts : SonioxProviderOptions) (fileId : String) :
    CreateBody :=
  { model := modelId
    file_id := some fileId
    language_hints := opts.languageHints
    enable_language_identification := opts.enableLanguageIdentification
    enable_speaker_diarization := opts.enableSpeakerDiarization
    context := mapContext opts.context
    client_reference_id := opts.clientReferenceId
    webhook_url := opts.webhookUrl
    webhook_auth_header_name := opts.webhookAuthHeaderName
    webhook_auth_header_value := opts.webhookAuthHeaderValue
    translation := mapTranslation opts.translation }

/-- What the `try` block of `doGenerate` produced: its outcome, which remote
resources were created (`fileId` is set as soon as the upload succeeds,
`transcriptionId` as soon as the submission succeeds), and the requests
issued. -/
structure AttemptOut where
  result : Except Failure TranscriptionResult
  fileId : Option String
  transcriptionId : Option String
  trace : List Request

/-- The `try` block of the core revision's `doGenerate`: upload → submit →
poll → fetch transcript → map. -/
def attempt (modelId : String) (opts : SonioxProviderOptions) (env : Env)
    (fuel : Nat) : AttemptOut :=
  match env.uploadResult with
  | .error e =>
    { result := .error (.transport e), fileId := none, transcriptionId := none
      trace := [.uploadFile true] }
  | .ok fid =>
    match env.submitResult with
    | .error e =>
      { result := .error (.transport e), fileId := some fid, transcriptionId := none
        trace := [.uploadFile true, .createTranscription (coreBody modelId opts fid) true] }
    | .ok created =>
      let lead : List Request :=
        [.uploadFile true, .createTranscription (coreBody modelId opts fid) true]
      match pollLoop env created.id 0 none fuel with
      | (.fuelExhausted, tr) =>
        { result := .error .outOfFuel, fileId := some fid
          transcriptionId := some created.id, trace := lead ++ tr }
      | (.failed f, tr) =>
        { result := .error f, fileId := some fid
          transcriptionId := some created.id, trace := lead ++ tr }
      | (.completed statusResp, tr) =>
        match env.transcriptResult with
        | .error e =>
          { result := .error (.transport e), fileId := some fid
            transcriptionId := some created.id
            trace := lead ++ tr ++ [.getTranscript created.id true] }
        | .ok t =>
          let tokens := t.tokens.getD []
          { result := .ok
              { text := t.text.getD ""
                segments := buildSegments (some tokens)
                language := getLanguageFromTokens (some tokens)
                durationInSeconds := statusResp.audio_duration_ms.map (· / 1000)
                warnings := []
                metadataTokens := tokens }
            fileId := some fid, transcriptionId := some created.id
            trace := lead ++ tr ++ [.getTranscript created.id true] }

/-- `tryDeleteResource`: one best-effort `DELETE` (issued by a bare `fetch`
without the caller's abort signal); a thrown error or non-ok response becomes
one warning instead of propagating. -/
def tryDeleteResource (outcome : Except String Unit) (description : String) :
    List Warning :=
  match outcome with
  | .ok _ => []
  | .error m =>
    [{ type := "other", message := "Failed to auto-delete " ++ description ++ ": " ++ m }]

/-- The `finally` block: delete the transcription if one was created, then the
file if one was created, each independently best-effort.  Returns the warnings
pushed and the requests issued. -/
def finalize (env : Env) (transcriptionId : Option String) (fileId : Option String) :
    List Warning × List Request :=
  let jobPart : List Warning × List Request :=
    match transcriptionId with
    | none => ([], [])
    | some tid =>
      (tryDeleteResource env.deleteTranscriptionResult ("transcription " ++ tid),
        [.deleteTranscription tid false])
  let filePart : List Warning × List Request :=
    match fileId with
    | none => ([], [])
    | some fid =>
      (tryDeleteResource env.deleteFileResult ("file " ++ fid),
        [.deleteFile fid false])
  (jobPart.1 ++ filePart.1, jobPart.2 ++ filePart.2)

/-- Outcome and full request trace of one `doGenerate` call. -/
structure RunOut where
  outcome : Except Failure TranscriptionResult
  trace : List Request

/-- The core revision's `doGenerate`: the `try` block, then the `finally`
cleanup on every exit path.  On success the warnings pushed by the cleanup
land in the returned result (the code returns the `warnings` array by
reference and pushes into it in `finally`); on failure the primary error is
surfaced unchanged. -/
def doGenerate (modelId : String) (opts : SonioxProviderOptions) (env : Env)
    (fuel : Nat) : RunOut :=
  let a := attempt modelId opts env fuel
  let fin := finalize env a.transcriptionId a.fileId
  { outcome :=
      match a.result with
      | .ok r => .ok { r with warnings := r.warnings ++ fin.1 }
      | .error e => .error e
    trace := a.trace ++ fin.2 }

end SonioxCore

namespace SonioxNamed

/-! ## Named revision (`src/packages/soniox/src/soniox-transcription-model.ts`)

`doGenerate` with the `audioUrl` / `fileId` provider options: the
mutual-exclusion check, the conditional upload, and `audio_url` / `file_id`
in the submission body.  This revision has no poll timeout, no cleanup, and
sets `language: undefined` in the result.  Its `buildSegments` is identical
to the shared one. -/

open Soniox

/-- JS truthiness of a string-or-absent value: `undefined`, `null` and the
empty string are falsy. -/
def truthyStr : Option String → Bool
  | none => false
  | some s => decide (s ≠ "")

/-- Environment of one named-revision `doGenerate` call. -/
structure NEnv where
  uploadResult : Except ApiError String
  submitResult : Except ApiError CreateResponse
  pollResults : Nat → Except ApiError StatusResponse
  transcriptResult : Except ApiError TranscriptResponse
  abortedAt : Nat → Bool

/-- The error kinds of the named revision.  `config` is the
`Provide either audioUrl or fileId, not both.` error. -/
inductive NFailure
  | config (message : String)
  | transport (e : ApiError)
  | jobFailed (message : String)
  | aborted (message : String)
  | outOfFuel
deriving DecidableEq

/-- Outcome of the named revision's poll loop. -/
inductive NPollOutcome
  | completed (status : StatusResponse)
  | failed (f : NFailure)
  | fuelExhausted
deriving DecidableEq

/-- The named revision's `while (true)` poll loop: abort check at the top of
each iteration, then the status query; no wall-clock timeout. -/
def pollLoop (env : NEnv) (tid : String) : Nat → Nat → NPollOutcome × List Request
  | _, 0 => (.fuelExhausted, [])
  | iter, fuel + 1 =>
    if env.abortedAt iter then
      (.failed (.aborted "Transcription request was aborted"), [])
    else
      match env.pollResults iter with
      | .error e => (.failed (.transport e), [.getStatus tid true])
      | .ok s =>
        if s.status = "completed" then
          (.completed s, [.getStatus tid true])
        else if s.status = "error" then
          (.failed (.jobFailed
              ("Transcription failed: " ++ s.error_message.getD "Unknown error")),
            [.getStatus tid true])
        else
          let rest := pollLoop env tid (iter + 1) fuel
          (rest.1, .getStatus tid true :: rest.2)

/-- The submission body of the named revision:
`audio_url: audioUrl ?? undefined, file_id: fileId ?? undefined` plus the
tuning fields. -/
def namedBody (modelId : String) (opts : SonioxProviderOptions)
    (audioUrl : Option String) (fileId : Option String) : CreateBody :=
  { model := modelId
    audio_url := audioUrl
    file_id := fileId
    language_hints := opts.languageHints
    enable_language_identification := opts.enableLanguageIdentification
    enable_speaker_diarization := opts.enableSpeakerDiarization
    context := mapContext opts.context
    client_reference_id := opts.clientReferenceId
    webhook_url := opts.webhookUrl
    webhook_auth_header_name := opts.webhookAuthHeaderName
    webhook_auth_header_value := opts.webhookAuthHeaderValue
    translation := mapTranslation opts.translation }

/-- Outcome and full request trace of one named-revision `doGenerate` call. -/
structure NRunOut where
  outcome : Except NFailure TranscriptionResult
  trace : List Request

/-- Shared tail of the named revision's `doGenerate` after the audio source is
resolved: submit, poll, fetch transcript, map (with `language: undefined`). -/
def afterSource (modelId : String) (opts : SonioxProviderOptions) (env : NEnv)
    (fuel : Nat) (audioUrl : Option String) (fileId : Option String)
    (lead : List Request) : NRunOut :=
  let body := namedBody modelId opts audioUrl fileId
  match env.submitResult with
  | .error e =>
    { outcome := .error (.transport e), trace := lead ++ [.createTranscription body true] }
  | .ok created =>
    let lead2 := lead ++ [.createTranscription body true]
    match pollLoop env created.id 0 fuel with
    | (.fuelExhausted, tr) => { outcome := .error .outOfFuel, trace := lead2 ++ tr }
    | (.failed f, tr) => { outcome := .error f, trace := lead2 ++ tr }
    | (.completed statusResp, tr) =>
      match env.transcriptResult with
      | .error e =>
        { outcome := .error (.transport e)
          trace := lead2 ++ tr ++ [.getTranscript created.id true] }
      | .ok t =>
        let tokens := t.tokens.getD []
        { outcome := .ok
            { text := t.text.getD ""
              segments := buildSegments (some tokens)
              language := none
              durationInSeconds := statusResp.audio_duration_ms.map (· / 1000)
              warnings := []
              metadataTokens := tokens }
          trace := lead2 ++ tr ++ [.getTranscript created.id true] }

/-- The named revision's `doGenerate`.  `audioUrl` and `fileIdOverride` come
from the parsed options; supplying both (as truthy values) throws the
configuration error before any request; the upload runs only when neither is
truthy. -/
def doGenerate (modelId : String) (opts : SonioxProviderOptions) (env : NEnv)
    (fuel : Nat) : NRunOut :=
  let audioUrl := opts.audioUrl
  let fileIdOverride := opts.fileId
  if truthyStr audioUrl && truthyStr fileIdOverride then
    { outcome := .error (.config "Provide either audioUrl or fileId, not both.")
      trace := [] }
  else
    if !truthyStr audioUrl && !truthyStr fileIdOverride then
      match env.uploadResult with
      | .error e => { outcome := .error (.transport e), trace := [.uploadFile true] }
      | .ok uploadedId =>
        afterSource modelId opts env fuel audioUrl (some uploadedId) [.uploadFile true]
    else
      afterSource modelId opts env fuel audioUrl fileIdOverride []

theorem namedPollLoop_trace_getStatus (env : NEnv) (tid : String) :
    ∀ (fuel iter : Nat) (r : Request),
      r ∈ (pollLoop env tid iter fuel).2 → r = .getStatus tid true := by
  intro fuel
  induction fuel with
  | zero => intro iter r h; simp [pollLoop] at h
  | succ f ih =>
    intro iter r h
    by_cases hab : env.abortedAt iter = true
    · have hstep : pollLoop env tid iter (f + 1) =
          (.failed (.aborted "Transcription request was aborted"), []) := by
        rw [pollLoop, if_pos (by simp [hab])]
      rw [hstep] at h
      simp at h
    · cases hpoll : env.pollResults iter with
      | error e =>
        have hstep : pollLoop env tid iter (f + 1) =
            (.failed (.transport e), [.getStatus tid true]) := by
          rw [pollLoop, if_neg hab, hpoll]
        rw [hstep] at h
        simp at h
        exact h
      | ok st =>
        by_cases hc : st.status = "completed"
        · have hstep : pollLoop env tid iter (f + 1) =
              (.completed st, [.getStatus tid true]) := by
            rw [pollLoop, if_neg hab, hpoll]
            simp [hc]
          rw [hstep] at h
          simp at h
          exact h
        · by_cases he : st.status = "error"
          · have hstep : pollLoop env tid iter (f + 1) =
                (.failed (.jobFailed ("Transcription failed: " ++
                    st.error_message.getD "Unknown error")), [.getStatus tid true]) := by
              rw [pollLoop, if_neg hab, hpoll]
              simp [hc, he]
            rw [hstep] at h
            simp at h
            exact h
          · have hstep : pollLoop env tid iter (f + 1) =
                ((pollLoop env tid (iter + 1) f).1,
                  .getStatus tid true :: (pollLoop env tid (iter + 1) f).2) := by
              rw [pollLoop, if_neg hab, hpoll]
              simp [hc, he]
            rw [hstep] at h
            simp only [List.mem_cons] at h
            rcases h with rfl | h
            · rfl
            · exact ih (iter + 1) r h

/-- The request trace of the post-source pipeline: the submission request with
the given body first, and afterwards only status and transcript requests. -/
theorem afterSource_trace_shape (modelId : String) (opts : SonioxProviderOptions)
    (env : NEnv) (fuel : Nat) (audioUrl fileId : Option String)
    (lead : List Request) :
    ∃ rest, (afterSource modelId opts env fuel audioUrl fileId lead).trace =
      lead ++ Request.createTranscription (namedBody modelId opts audioUrl fileId) true
        :: rest ∧
      ∀ r ∈ rest, (∃ tid, r = Request.getStatus tid true) ∨
        (∃ tid, r = Request.getTranscript tid true) := by
  cases hs : env.submitResult with
  | error e =>
    refine ⟨[], ?_, by simp⟩
    simp [afterSource, hs]
  | ok created =>
    rcases hp : pollLoop env created.id 0 fuel with ⟨po, tr0⟩
    have htr : ∀ x ∈ tr0, x = Request.getStatus created.id true := by
      intro x hx
      have hps := namedPollLoop_trace_getStatus env created.id fuel 0 x
      rw [hp] at hps
      exact hps hx
    cases po with
    | fuelExhausted =>
      refine ⟨tr0, ?_, fun r hr => Or.inl ⟨created.id, htr r hr⟩⟩
      simp [afterSource, hs, hp]
    | failed f =>
      refine ⟨tr0, ?_, fun r hr => Or.inl ⟨created.id, htr r hr⟩⟩
      simp [afterSource, hs, hp]
    | completed st =>
      cases ht : env.transcriptResult with
      | error e =>
        refine ⟨tr0 ++ [.getTranscript created.id true], ?_, ?_⟩
        · simp [afterSource, hs, hp, ht]
        · intro r hr
          rcases List.mem_append.mp hr with hx | hx
          · exact Or.inl ⟨created.id, htr r hx⟩
          · simp at hx
            exact Or.inr ⟨created.id, hx⟩
      | ok t =>
        refine ⟨tr0 ++ [.getTranscript created.id true], ?_, ?_⟩
        · simp [afterSource, hs, hp, ht]
        · intro r hr
          rcases List.mem_append.mp hr with hx | hx
          · exact Or.inl ⟨created.id, htr r hx⟩
          · simp at hx
            exact Or.inr ⟨created.id, hx⟩

end SonioxNamed

namespace SonioxCore

open Soniox

/-! ### Poll-loop lemmas -/

/-- The status body received by poll `i`, when that poll succeeded. -/
def statusAt (env : Env) (i : Nat) : Option StatusResponse :=
  match env.pollResults i with
  | .ok s => some s
  | .error _ => none

/-- Poll iterations `iter, …, iter+k-1` neither exceed the timeout nor observe
an abort, and each receives a non-terminal status. -/
def cleanFor (env : Env) (iter k : Nat) : Prop :=
  ∀ j < k,
    env.elapsedMsAt (iter + j) ≤ timeoutMs ∧
    env.abortedAt (iter + j) = false ∧
    ∃ s, env.pollResults (iter + j) = .ok s ∧
      s.status ≠ "completed" ∧ s.status ≠ "error"

/-- The value of the `statusResponse` variable after `k` further clean
iterations starting at `iter`, when it held `last` before them. -/
def lastAfter (env : Env) (iter : Nat) (last : Option StatusResponse) :
    Nat → Option StatusResponse
  | 0 => last
  | j + 1 => statusAt env (iter + j)

theorem countP_replicate {α : Type} (p : α → Bool) (x : α) :
    ∀ k, (List.replicate k x).countP p = if p x then k else 0 := by
  intro k
  induction k with
  | zero => simp
  | succ k ih =>
    rw [List.replicate_succ, List.countP_cons, ih]
    by_cases h : p x = true <;> simp [h]

theorem pollLoop_skip (env : Env) (tid : String) :
    ∀ (k iter : Nat) (last : Option StatusResponse) (fuel : Nat), k < fuel →
      cleanFor env iter k →
      pollLoop env tid iter last fuel =
        ((pollLoop env tid (iter + k) (lastAfter env iter last k) (fuel - k)).1,
          List.replicate k (.getStatus tid true) ++
            (pollLoop env tid (iter + k) (lastAfter env iter last k) (fuel - k)).2) := by
  intro k
  induction k with
  | zero =>
    intro iter last fuel _ _
    simp [lastAfter]
  | succ k ih =>
    intro iter last fuel hk hclean
    obtain ⟨f, rfl⟩ : ∃ f, fuel = f + 1 := ⟨fuel - 1, by omega⟩
    obtain ⟨hto, hab, s0, hpoll, hnc, hne⟩ := hclean 0 (Nat.succ_pos k)
    rw [Nat.add_zero] at hto hab hpoll
    have hclean' : cleanFor env (iter + 1) k := by
      intro j hj
      have := hclean (j + 1) (by omega)
      have harith : iter + (j + 1) = iter + 1 + j := by omega
      rwa [harith] at this
    have hstep : pollLoop env tid iter last (f + 1) =
        ((pollLoop env tid (iter + 1) (some s0) f).1,
          Request.getStatus tid true :: (pollLoop env tid (iter + 1) (some s0) f).2) := by
      rw [pollLoop, if_neg (not_lt.mpr hto)]
      rw [if_neg (by simp [hab])]
      rw [hpoll]
      simp [hnc, hne]
    rw [hstep, ih (iter + 1) (some s0) f (by omega) hclean']
    have harith : iter + 1 + k = iter + (k + 1) := by omega
    have hfuel : f - k = f + 1 - (k + 1) := by omega
    have hlast : lastAfter env (iter + 1) (some s0) k =
        lastAfter env iter last (k + 1) := by
      cases k with
      | zero => simp [lastAfter, statusAt, hpoll]
      | succ j =>
        show statusAt env (iter + 1 + j) = statusAt env (iter + (j + 1))
        have : iter + 1 + j = iter + (j + 1) := by omega
        rw [this]
    rw [harith, hfuel, hlast, List.replicate_succ]
    simp


theorem pollLoop_entry_timeout (env : Env) (tid : String) (iter : Nat)
    (last : Option StatusResponse) (fuel : Nat) (hfuel : 0 < fuel)
    (hto : timeoutMs < env.elapsedMsAt iter) :
    pollLoop env tid iter last fuel = (.failed (.pollTimedOut last), []) := by
  obtain ⟨g, rfl⟩ : ∃ g, fuel = g + 1 := ⟨fuel - 1, by omega⟩
  rw [pollLoop, if_pos hto]

theorem pollLoop_entry_abort (env : Env) (tid : String) (iter : Nat)
    (last : Option StatusResponse) (fuel : Nat) (hfuel : 0 < fuel)
    (hto : env.elapsedMsAt iter ≤ timeoutMs) (hab : env.abortedAt iter = true) :
    pollLoop env tid iter last fuel =
      (.failed (.aborted "Transcription request was aborted"), []) := by
  obtain ⟨g, rfl⟩ : ∃ g, fuel = g + 1 := ⟨fuel - 1, by omega⟩
  rw [pollLoop, if_neg (not_lt.mpr hto), if_pos (by simp [hab])]

theorem pollLoop_entry_error (env : Env) (tid : String) (iter : Nat)
    (last : Option StatusResponse) (fuel : Nat) (s : StatusResponse)
    (hfuel : 0 < fuel) (hto : env.elapsedMsAt iter ≤ timeoutMs)
    (hab : env.abortedAt iter = false) (hpoll : env.pollResults iter = .ok s)
    (hst : s.status = "error") :
    pollLoop env tid iter last fuel =
      (.failed (.jobFailed
          ("Transcription failed: " ++ s.error_message.getD "Unknown error") s),
        [.getStatus tid true]) := by
  obtain ⟨g, rfl⟩ : ∃ g, fuel = g + 1 := ⟨fuel - 1, by omega⟩
  rw [pollLoop, if_neg (not_lt.mpr hto), if_neg (by simp [hab]), hpoll]
  have hnc : ¬ s.status = "completed" := by simp [hst]
  simp [hnc, hst]

theorem pollLoop_entry_completed (env : Env) (tid : String) (iter : Nat)
    (last : Option StatusResponse) (fuel : Nat) (s : StatusResponse)
    (hfuel : 0 < fuel) (hto : env.elapsedMsAt iter ≤ timeoutMs)
    (hab : env.abortedAt iter = false) (hpoll : env.pollResults iter = .ok s)
    (hst : s.status = "completed") :
    pollLoop env tid iter last fuel = (.completed s, [.getStatus tid true]) := by
  obtain ⟨g, rfl⟩ : ∃ g, fuel = g + 1 := ⟨fuel - 1, by omega⟩
  rw [pollLoop, if_neg (not_lt.mpr hto), if_neg (by simp [hab]), hpoll]
  simp [hst]

theorem pollLoop_trace_getStatus (env : Env) (tid : String) :
    ∀ (fuel iter : Nat) (last : Option StatusResponse) (r : Request),
      r ∈ (pollLoop env tid iter last fuel).2 → r = .getStatus tid true := by
  intro fuel
  induction fuel with
  | zero => intro iter last r h; simp [pollLoop] at h
  | succ f ih =>
    intro iter last r h
    by_cases hto : timeoutMs < env.elapsedMsAt iter
    · rw [pollLoop_entry_timeout env tid iter last (f + 1) (Nat.succ_pos f) hto] at h
      simp at h
    · have hto' : env.elapsedMsAt iter ≤ timeoutMs := not_lt.mp hto
      by_cases hab : env.abortedAt iter = true
      · rw [pollLoop_entry_abort env tid iter last (f + 1) (Nat.succ_pos f) hto' hab] at h
        simp at h
      · have hab' : env.abortedAt iter = false := by simpa using hab
        cases hpoll : env.pollResults iter with
        | error e =>
          have hstep : pollLoop env tid iter last (f + 1) =
              (.failed (.transport e), [.getStatus tid true]) := by
            rw [pollLoop, if_neg hto, if_neg (by simp [hab']), hpoll]
          rw [hstep] at h
          simp at h
          exact h
        | ok s =>
          by_cases hc : s.status = "completed"
          · rw [pollLoop_entry_completed env tid iter last (f + 1) s
              (Nat.succ_pos f) hto' hab' hpoll hc] at h
            simp at h
            exact h
          · by_cases he : s.status = "error"
            · rw [pollLoop_entry_error env tid iter last (f + 1) s
                (Nat.succ_pos f) hto' hab' hpoll he] at h
              simp at h
              exact h
            · have hstep : pollLoop env tid iter last (f + 1) =
                  ((pollLoop env tid (iter + 1) (some s) f).1,
                    .getStatus tid true :: (pollLoop env tid (iter + 1) (some s) f).2) := by
                rw [pollLoop, if_neg hto, if_neg (by simp [hab']), hpoll]
                simp [hc, he]
              rw [hstep] at h
              simp only [List.mem_cons] at h
              rcases h with rfl | h
              · rfl
              · exact ih (iter + 1) (some s) r h

/-- `attempt` when the upload fails. -/
theorem attempt_upload_error (modelId : String) (opts : SonioxProviderOptions)
    (env : Env) (fuel : Nat) (e : ApiError) (hu : env.uploadResult = .error e) :
    attempt modelId opts env fuel =
      { result := .error (.transport e), fileId := none, transcriptionId := none
        trace := [.uploadFile true] } := by
  rw [attempt]
  simp only [hu]

/-- `attempt` when the submission fails. -/
theorem attempt_submit_error (modelId : String) (opts : SonioxProviderOptions)
    (env : Env) (fuel : Nat) (fid : String) (e : ApiError)
    (hu : env.uploadResult = .ok fid) (hs : env.submitResult = .error e) :
    attempt modelId opts env fuel =
      { result := .error (.transport e), fileId := some fid, transcriptionId := none
        trace := [.uploadFile true,
          .createTranscription (coreBody modelId opts fid) true] } := by
  rw [attempt]
  simp only [hu, hs]

/-- `attempt` when the poll loop runs out of model fuel. -/
theorem attempt_poll_fuelOut (modelId : String) (opts : SonioxProviderOptions)
    (env : Env) (fuel : Nat) (fid : String) (created : CreateResponse)
    (tr : List Request)
    (hu : env.uploadResult = .ok fid) (hs : env.submitResult = .ok created)
    (hp : pollLoop env created.id 0 none fuel = (.fuelExhausted, tr)) :
    attempt modelId opts env fuel =
      { result := .error .outOfFuel, fileId := some fid
        transcriptionId := some created.id
        trace := [.uploadFile true,
          .createTranscription (coreBody modelId opts fid) true] ++ tr } := by
  rw [attempt]
  simp only [hu, hs, hp]

/-- `attempt` when the poll loop raises. -/
theorem attempt_poll_failed (modelId : String) (opts : SonioxProviderOptions)
    (env : Env) (fuel : Nat) (fid : String) (created : CreateResponse)
    (f : Failure) (tr : List Request)
    (hu : env.uploadResult = .ok fid) (hs : env.submitResult = .ok created)
    (hp : pollLoop env created.id 0 none fuel = (.failed f, tr)) :
    attempt modelId opts env fuel =
      { result := .error f, fileId := some fid, transcriptionId := some created.id
        trace := [.uploadFile true,
          .createTranscription (coreBody modelId opts fid) true] ++ tr } := by
  rw [attempt]
  simp only [hu, hs, hp]

/-- `attempt` when polling completes but the transcript fetch fails. -/
theorem attempt_transcript_error (modelId : String) (opts : SonioxProviderOptions)
    (env : Env) (fuel : Nat) (fid : String) (created : CreateResponse)
    (st : StatusResponse) (tr : List Request) (e : ApiError)
    (hu : env.uploadResult = .ok fid) (hs : env.submitResult = .ok created)
    (hp : pollLoop env created.id 0 none fuel = (.completed st, tr))
    (ht : env.transcriptResult = .error e) :
    attempt modelId opts env fuel =
      { result := .error (.transport e), fileId := some fid
        transcriptionId := some created.id
        trace := [.uploadFile true,
          .createTranscription (coreBody modelId opts fid) true] ++ tr ++
          [.getTranscript created.id true] } := by
  rw [attempt]
  simp only [hu, hs, hp, ht]

/-- `attempt` on the fully successful path. -/
theorem attempt_completed_ok (modelId : String) (opts : SonioxProviderOptions)
    (env : Env) (fuel : Nat) (fid : String) (created : CreateResponse)
    (st : StatusResponse) (tr : List Request) (t : TranscriptResponse)
    (hu : env.uploadResult = .ok fid) (hs : env.submitResult = .ok created)
    (hp : pollLoop env created.id 0 none fuel = (.completed st, tr))
    (ht : env.transcriptResult = .ok t) :
    attempt modelId opts env fuel =
      { result := .ok
          { text := t.text.getD ""
            segments := buildSegments (some (t.tokens.getD []))
            language := getLanguageFromTokens (some (t.tokens.getD []))
            durationInSeconds := st.audio_duration_ms.map (· / 1000)
            warnings := []
            metadataTokens := t.tokens.getD [] }
        fileId := some fid, transcriptionId := some created.id
        trace := [.uploadFile true,
          .createTranscription (coreBody modelId opts fid) true] ++ tr ++
          [.getTranscript created.id true] } := by
  rw [attempt]
  simp only [hu, hs, hp, ht]

/-- `doGenerate` spelled out in terms of `attempt` and `finalize`. -/
theorem doGenerate_eq (modelId : String) (opts : SonioxProviderOptions)
    (env : Env) (fuel : Nat) :
    doGenerate modelId opts env fuel =
      { outcome :=
          match (attempt modelId opts env fuel).result with
          | .ok r => .ok { r with warnings := r.warnings ++
              (finalize env (attempt modelId opts env fuel).transcriptionId
                (attempt modelId opts env fuel).fileId).1 }
          | .error e => .error e
        trace := (attempt modelId opts env fuel).trace ++
          (finalize env (attempt modelId opts env fuel).transcriptionId
            (attempt modelId opts env fuel).fileId).2 } := rfl

/-- No request of the `try` block is a deletion. -/
theorem attempt_trace_no_delete (modelId : String) (opts : SonioxProviderOptions)
    (env : Env) (fuel : Nat) (r : Request)
    (h : r ∈ (attempt modelId opts env fuel).trace) :
    (∀ tid b, r ≠ Request.deleteTranscription tid b) ∧
    (∀ fid b, r ≠ Request.deleteFile fid b) := by
  have hgen : (∃ b, r = Request.uploadFile b) ∨
      (∃ body b, r = Request.createTranscription body b) ∨
      (∃ tid b, r = Request.getStatus tid b) ∨
      (∃ tid b, r = Request.getTranscript tid b) := by
    cases hu : env.uploadResult with
    | error e =>
      rw [attempt_upload_error modelId opts env fuel e hu] at h
      simp at h
      exact Or.inl ⟨true, h⟩
    | ok fid =>
      cases hs : env.submitResult with
      | error e =>
        rw [attempt_submit_error modelId opts env fuel fid e hu hs] at h
        simp at h
        rcases h with rfl | rfl
        · exact Or.inl ⟨true, rfl⟩
        · exact Or.inr (Or.inl ⟨_, true, rfl⟩)
      | ok created =>
        rcases hp : pollLoop env created.id 0 none fuel with ⟨po, tr0⟩
        have htr : ∀ x ∈ tr0, x = Request.getStatus created.id true := by
          intro x hx
          have hps := pollLoop_trace_getStatus env created.id fuel 0 none x
          rw [hp] at hps
          exact hps hx
        have hend : r ∈ tr0 → (∃ b, r = Request.uploadFile b) ∨
            (∃ body b, r = Request.createTranscription body b) ∨
            (∃ tid b, r = Request.getStatus tid b) ∨
            (∃ tid b, r = Request.getTranscript tid b) := by
          intro hx
          exact Or.inr (Or.inr (Or.inl ⟨created.id, true, htr r hx⟩))
        cases po with
        | fuelExhausted =>
          rw [attempt_poll_fuelOut modelId opts env fuel fid created tr0 hu hs hp] at h
          simp at h
          rcases h with rfl | rfl | hx
          · exact Or.inl ⟨true, rfl⟩
          · exact Or.inr (Or.inl ⟨_, true, rfl⟩)
          · exact hend hx
        | failed f =>
          rw [attempt_poll_failed modelId opts env fuel fid created f tr0 hu hs hp] at h
          simp at h
          rcases h with rfl | rfl | hx
          · exact Or.inl ⟨true, rfl⟩
          · exact Or.inr (Or.inl ⟨_, true, rfl⟩)
          · exact hend hx
        | completed st =>
          cases ht : env.transcriptResult with
          | error e =>
            rw [attempt_transcript_error modelId opts env fuel fid created st tr0 e
              hu hs hp ht] at h
            simp at h
            rcases h with rfl | rfl | hx | rfl
            · exact Or.inl ⟨true, rfl⟩
            · exact Or.inr (Or.inl ⟨_, true, rfl⟩)
            · exact hend hx
            · exact Or.inr (Or.inr (Or.inr ⟨created.id, true, rfl⟩))
          | ok t =>
            rw [attempt_completed_ok modelId opts env fuel fid created st tr0 t
              hu hs hp ht] at h
            simp at h
            rcases h with rfl | rfl | hx | rfl
            · exact Or.inl ⟨true, rfl⟩
            · exact Or.inr (Or.inl ⟨_, true, rfl⟩)
            · exact hend hx
            · exact Or.inr (Or.inr (Or.inr ⟨created.id, true, rfl⟩))
  rcases hgen with ⟨b, rfl⟩ | ⟨body, b, rfl⟩ | ⟨tid, b, rfl⟩ | ⟨tid, b, rfl⟩ <;>
    exact ⟨fun _ _ => by simp, fun _ _ => by simp⟩

/-- Field content of a successful `try` block result. -/
theorem attempt_ok_shape (modelId : String) (opts : SonioxProviderOptions)
    (env : Env) (fuel : Nat) (res : TranscriptionResult)
    (h : (attempt modelId opts env fuel).result = .ok res) :
    ∃ tr, env.transcriptResult = .ok tr ∧
      res.text = tr.text.getD "" ∧
      res.segments = buildSegments (some (tr.tokens.getD [])) ∧
      res.language = getLanguageFromTokens (some (tr.tokens.getD [])) ∧
      res.warnings = [] ∧
      res.metadataTokens = tr.tokens.getD [] := by
  cases hu : env.uploadResult with
  | error e =>
    rw [attempt_upload_error modelId opts env fuel e hu] at h
    simp at h
  | ok fid =>
    cases hs : env.submitResult with
    | error e =>
      rw [attempt_submit_error modelId opts env fuel fid e hu hs] at h
      simp at h
    | ok created =>
      rcases hp : pollLoop env created.id 0 none fuel with ⟨po, tr0⟩
      cases po with
      | fuelExhausted =>
        rw [attempt_poll_fuelOut modelId opts env fuel fid created tr0 hu hs hp] at h
        simp at h
      | failed f =>
        rw [attempt_poll_failed modelId opts env fuel fid created f tr0 hu hs hp] at h
        simp at h
      | completed st =>
        cases ht : env.transcriptResult with
        | error e =>
          rw [attempt_transcript_error modelId opts env fuel fid created st tr0 e
            hu hs hp ht] at h
          simp at h
        | ok t =>
          rw [attempt_completed_ok modelId opts env fuel fid created st tr0 t
            hu hs hp ht] at h
          simp at h
          exact ⟨t, rfl, by rw [← h], by rw [← h], by rw [← h], by rw [← h],
            by rw [← h]⟩

/-- A successful call's mapped fields come from the fetched transcript. -/
theorem doGenerate_ok_shape (modelId : String) (opts : SonioxProviderOptions)
    (env : Env) (fuel : Nat) (res : TranscriptionResult)
    (h : (doGenerate modelId opts env fuel).outcome = .ok res) :
    ∃ tr, env.transcriptResult = .ok tr ∧
      res.text = tr.text.getD "" ∧
      res.segments = buildSegments (some (tr.tokens.getD [])) ∧
      res.language = getLanguageFromTokens (some (tr.tokens.getD [])) ∧
      res.metadataTokens = tr.tokens.getD [] := by
  rw [doGenerate_eq] at h
  cases ha : (attempt modelId opts env fuel).result with
  | error e => simp [ha] at h
  | ok r =>
    simp only [ha] at h
    simp at h
    obtain ⟨tr, htr, h1, h2, h3, _, h4⟩ :=
      attempt_ok_shape modelId opts env fuel r ha
    exact ⟨tr, htr, by rw [← h]; exact h1, by rw [← h]; exact h2,
      by rw [← h]; exact h3, by rw [← h]; exact h4⟩

/-- Whether a best-effort deletion failed. -/
def deleteFailed : Except String Unit → Bool
  | .ok _ => false
  | .error _ => true

theorem finalize_trace (env : Env) (tid fid : Option String) :
    (finalize env tid fid).2 =
      (match tid with
       | none => []
       | some t => [Request.deleteTranscription t false]) ++
      (match fid with
       | none => []
       | some f => List.cons (Request.deleteFile f false) []) := by
  cases tid <;> cases fid <;> simp [finalize]

theorem finalize_warnings (env : Env) (tid fid : Option String) :
    (finalize env tid fid).1 =
      (match tid with
       | none => []
       | some t => tryDeleteResource env.deleteTranscriptionResult ("transcription " ++ t)) ++
      (match fid with
       | none => []
       | some f => tryDeleteResource env.deleteFileResult ("file " ++ f)) := by
  cases tid <;> cases fid <;> simp [finalize]

theorem tryDeleteResource_length (o : Except String Unit) (d : String) :
    (tryDeleteResource o d).length = if deleteFailed o then 1 else 0 := by
  cases o <;> simp [tryDeleteResource, deleteFailed]

/-- Once the submission succeeded, the ids of both created resources are
recorded regardless of how the call ends. -/
theorem attempt_ids (modelId : String) (opts : SonioxProviderOptions)
    (env : Env) (fuel : Nat) (fid : String) (created : CreateResponse)
    (hu : env.uploadResult = .ok fid) (hs : env.submitResult = .ok created) :
    (attempt modelId opts env fuel).fileId = some fid ∧
    (attempt modelId opts env fuel).transcriptionId = some created.id := by
  rcases hp : pollLoop env created.id 0 none fuel with ⟨po, tr0⟩
  cases po with
  | fuelExhausted =>
    rw [attempt_poll_fuelOut modelId opts env fuel fid created tr0 hu hs hp]
    exact ⟨rfl, rfl⟩
  | failed f =>
    rw [attempt_poll_failed modelId opts env fuel fid created f tr0 hu hs hp]
    exact ⟨rfl, rfl⟩
  | completed st =>
    cases ht : env.transcriptResult with
    | error e =>
      rw [attempt_transcript_error modelId opts env fuel fid created st tr0 e hu hs hp ht]
      exact ⟨rfl, rfl⟩
    | ok t =>
      rw [attempt_completed_ok modelId opts env fuel fid created st tr0 t hu hs hp ht]
      exact ⟨rfl, rfl⟩

/-- An aborted outcome implies both remote resources had been created. -/
theorem attempt_aborted_ids (modelId : String) (opts : SonioxProviderOptions)
    (env : Env) (fuel : Nat) (m : String)
    (h : (attempt modelId opts env fuel).result = .error (.aborted m)) :
    ∃ fid tid, (attempt modelId opts env fuel).fileId = some fid ∧
      (attempt modelId opts env fuel).transcriptionId = some tid := by
  cases hu : env.uploadResult with
  | error e =>
    rw [attempt_upload_error modelId opts env fuel e hu] at h
    simp at h
  | ok fid =>
    cases hs : env.submitResult with
    | error e =>
      rw [attempt_submit_error modelId opts env fuel fid e hu hs] at h
      simp at h
    | ok created =>
      obtain ⟨h1, h2⟩ := attempt_ids modelId opts env fuel fid created hu hs
      exact ⟨fid, created.id, h1, h2⟩

end SonioxCore

namespace Soniox

/-! ## Spec-side notions for the language claim

`langCount` and `firstTagIdx` speak about the raw token list, independently of
the tally machinery: the number of tokens carrying a given language tag, and
the position of the first such token. -/

/-- Number of tokens whose language tag is exactly `l`. -/
def langCount (tokens : List SonioxToken) (l : String) : Nat :=
  (tokens.filter fun t => decide (t.language = some l)).length

/-- Index of the first token whose language tag is exactly `l`. -/
def firstTagIdx (tokens : List SonioxToken) (l : String) : Nat :=
  tokens.findIdx fun t => decide (t.language = some l)

/-- Number of tokens whose normalized tag is `l` (used to relate the tally to
`langCount`). -/
def tallyCnt (tokens : List SonioxToken) (l : String) : Nat :=
  (tokens.filter fun t => decide (normTag t = some l)).length

/-- Count held for key `l` in an association list (0 when absent). -/
def getCount : List (String × Nat) → String → Nat
  | [], _ => 0
  | (k, v) :: rest, l => if k = l then v else getCount rest l

/-- Largest count in an association list (0 when empty). -/
def maxCnt : List (String × Nat) → Nat
  | [] => 0
  | p :: rest => max p.2 (maxCnt rest)

/-- The distinct non-empty language tags of a token list, in order of first
occurrence, skipping tags already in `seen`. -/
def firstSeenAux (seen : List String) : List SonioxToken → List String
  | [] => []
  | t :: ts =>
    match normTag t with
    | none => firstSeenAux seen ts
    | some l =>
      if l ∈ seen then firstSeenAux seen ts else l :: firstSeenAux (l :: seen) ts

/-- The distinct non-empty language tags in order of first occurrence. -/
def firstSeen (tokens : List SonioxToken) : List String := firstSeenAux [] tokens

/-! ### Tally lemmas -/

theorem getCount_setCount (A : List (String × Nat)) (l l' : String) :
    getCount (setCount A l) l' = getCount A l' + if l' = l then 1 else 0 := by
  induction A with
  | nil =>
    simp only [setCount, getCount]
    by_cases h : l' = l
    · subst h; simp
    · have h' : ¬ l = l' := fun e => h e.symm
      simp [h, h']
  | cons p rest ih =>
    obtain ⟨k, v⟩ := p
    by_cases hk : k = l
    · subst hk
      simp only [setCount, if_pos rfl, getCount]
      by_cases h : k = l'
      · subst h
        simp
      · have h' : ¬ l' = k := fun e => h e.symm
        simp [h, h']
    · simp only [setCount, if_neg hk, getCount]
      by_cases h : k = l'
      · have h' : ¬ l' = l := fun e => hk (h.trans e)
        simp [h, h']
      · simp [h, ih]

theorem keys_setCount (A : List (String × Nat)) (l : String) :
    (setCount A l).map Prod.fst =
      if l ∈ A.map Prod.fst then A.map Prod.fst else A.map Prod.fst ++ [l] := by
  induction A with
  | nil => simp [setCount]
  | cons p rest ih =>
    obtain ⟨k, v⟩ := p
    by_cases hk : k = l
    · subst hk
      simp [setCount]
    · have hkl : ¬ l = k := fun h => hk h.symm
      by_cases hmem : l ∈ rest.map Prod.fst <;>
        simp [setCount, hk, hkl, hmem, ih]

theorem getCount_tallyAux (l : String) :
    ∀ (ts : List SonioxToken) (A : List (String × Nat)),
      getCount (tallyAux A ts) l = getCount A l + tallyCnt ts l := by
  intro ts
  induction ts with
  | nil => intro A; simp [tallyAux, tallyCnt]
  | cons t ts ih =>
    intro A
    cases hnt : normTag t with
    | none =>
      have hne : ¬ normTag t = some l := by simp [hnt]
      simp [tallyAux, hnt, ih, tallyCnt, List.filter_cons, hne]
    | some m =>
      by_cases hml : m = l
      · subst hml
        simp [tallyAux, hnt, ih, getCount_setCount, tallyCnt, List.filter_cons, hnt]
        omega
      · have hne : ¬ normTag t = some l := by simp [hnt, hml]
        have hlm : ¬ l = m := fun h => hml h.symm
        simp [tallyAux, hnt, ih, getCount_setCount, tallyCnt, List.filter_cons, hne, hlm, hml]

theorem firstSeenAux_congr (ts : List SonioxToken) :
    ∀ s₁ s₂ : List String, (∀ x, x ∈ s₁ ↔ x ∈ s₂) →
      firstSeenAux s₁ ts = firstSeenAux s₂ ts := by
  induction ts with
  | nil => intro s₁ s₂ _; rfl
  | cons t ts ih =>
    intro s₁ s₂ h
    cases hnt : normTag t with
    | none => simp [firstSeenAux, hnt, ih s₁ s₂ h]
    | some l =>
      by_cases hm : l ∈ s₁
      · have hm₂ : l ∈ s₂ := (h l).mp hm
        simp [firstSeenAux, hnt, hm, hm₂, ih s₁ s₂ h]
      · have hm₂ : l ∉ s₂ := fun hx => hm ((h l).mpr hx)
        have hcong : ∀ x, x ∈ l :: s₁ ↔ x ∈ l :: s₂ := by
          intro x; simp [h x]
        simp [firstSeenAux, hnt, hm, hm₂, ih (l :: s₁) (l :: s₂) hcong]

theorem keys_tallyAux :
    ∀ (ts : List SonioxToken) (A : List (String × Nat)),
      (tallyAux A ts).map Prod.fst =
        A.map Prod.fst ++ firstSeenAux (A.map Prod.fst) ts := by
  intro ts
  induction ts with
  | nil => intro A; simp [tallyAux, firstSeenAux]
  | cons t ts ih =>
    intro A
    cases hnt : normTag t with
    | none => simp [tallyAux, hnt, ih, firstSeenAux]
    | some l =>
      by_cases hmem : l ∈ A.map Prod.fst
      · have hkeys : (setCount A l).map Prod.fst = A.map Prod.fst := by
          simp [keys_setCount, hmem]
        simp [tallyAux, hnt, firstSeenAux, hmem, ih, hkeys]
      · have hkeys : (setCount A l).map Prod.fst = A.map Prod.fst ++ [l] := by
          simp [keys_setCount, hmem]
        have hcong := firstSeenAux_congr ts (A.map Prod.fst ++ [l]) (l :: A.map Prod.fst)
          (by intro x; simp [or_comm])
        simp [tallyAux, hnt, firstSeenAux, hmem, ih, hkeys, hcong]

theorem normTag_eq_some {t : SonioxToken} {l : String} :
    normTag t = some l ↔ t.language = some l ∧ l ≠ "" := by
  cases h : t.language with
  | none => simp [normTag, h]
  | some m =>
    by_cases hm : m = ""
    · subst hm
      simp [normTag, h]
      intro e
      exact e.symm
    · simp [normTag, h, hm]
      intro e
      subst e
      exact hm

theorem normTag_eq_none {t : SonioxToken} :
    normTag t = none ↔ ∀ l, t.language = some l → l = "" := by
  cases h : t.language with
  | none => simp [normTag, h]
  | some m =>
    by_cases hm : m = "" <;> simp [normTag, h, hm]

theorem mem_firstSeenAux :
    ∀ (ts : List SonioxToken) (seen : List String) (l : String),
      l ∈ firstSeenAux seen ts ↔ (l ∉ seen ∧ ∃ t ∈ ts, normTag t = some l) := by
  intro ts
  induction ts with
  | nil => intro seen l; simp [firstSeenAux]
  | cons t ts ih =>
    intro seen l
    cases hnt : normTag t with
    | none =>
      have hne : ¬ normTag t = some l := by simp [hnt]
      simp only [firstSeenAux, hnt, ih, List.mem_cons]
      constructor
      · rintro ⟨hl, x, hx, hnx⟩
        exact ⟨hl, x, Or.inr hx, hnx⟩
      · rintro ⟨hl, x, hx, hnx⟩
        rcases hx with rfl | hx
        · exact (hne hnx).elim
        · exact ⟨hl, x, hx, hnx⟩
    | some m =>
      by_cases hms : m ∈ seen
      · simp only [firstSeenAux, hnt, if_pos hms, ih, List.mem_cons]
        constructor
        · rintro ⟨hl, x, hx, hnx⟩
          exact ⟨hl, x, Or.inr hx, hnx⟩
        · rintro ⟨hl, x, hx, hnx⟩
          rcases hx with rfl | hx
          · rw [hnt] at hnx
            injection hnx with e
            subst e
            exact (hl hms).elim
          · exact ⟨hl, x, hx, hnx⟩
      · simp only [firstSeenAux, hnt, if_neg hms, List.mem_cons, ih]
        constructor
        · rintro (rfl | ⟨hl, x, hx, hnx⟩)
          · exact ⟨hms, t, Or.inl rfl, hnt⟩
          · have hl' : l ∉ seen := fun hx' => hl (by simp [hx'])
            exact ⟨hl', x, Or.inr hx, hnx⟩
        · rintro ⟨hl, x, hx, hnx⟩
          by_cases hlm : l = m
          · exact Or.inl hlm
          · rcases hx with rfl | hx
            · rw [hnt] at hnx
              injection hnx with e
              exact (hlm e.symm).elim
            · refine Or.inr ⟨?_, x, hx, hnx⟩
              simp [List.mem_cons, hlm, hl]

theorem nodup_firstSeenAux :
    ∀ (ts : List SonioxToken) (seen : List String), (firstSeenAux seen ts).Nodup := by
  intro ts
  induction ts with
  | nil => intro seen; simp [firstSeenAux]
  | cons t ts ih =>
    intro seen
    cases hnt : normTag t with
    | none => simpa [firstSeenAux, hnt] using ih seen
    | some m =>
      by_cases hms : m ∈ seen
      · simpa [firstSeenAux, hnt, hms] using ih seen
      · simp only [firstSeenAux, hnt, if_neg hms, List.nodup_cons]
        refine ⟨fun hmem => ?_, ih (m :: seen)⟩
        have := (mem_firstSeenAux ts (m :: seen) m).mp hmem
        exact this.1 (List.mem_cons_self m seen)

theorem tallyCnt_pos {ts : List SonioxToken} {l : String} :
    0 < tallyCnt ts l ↔ ∃ t ∈ ts, normTag t = some l := by
  rw [tallyCnt, List.length_pos]
  constructor
  · intro h
    rcases List.exists_mem_of_ne_nil _ h with ⟨t, ht⟩
    rcases List.mem_filter.mp ht with ⟨htm, hp⟩
    exact ⟨t, htm, of_decide_eq_true hp⟩
  · rintro ⟨t, htm, hp⟩
    intro hnil
    have : t ∈ List.filter (fun t => decide (normTag t = some l)) ts :=
      List.mem_filter.mpr ⟨htm, decide_eq_true hp⟩
    rw [hnil] at this
    exact absurd this (List.not_mem_nil t)

theorem tallyCnt_eq_langCount {l : String} (hl : l ≠ "") (ts : List SonioxToken) :
    tallyCnt ts l = langCount ts l := by
  unfold tallyCnt langCount
  congr 1
  apply List.filter_congr
  intro t _
  apply decide_eq_decide.mpr
  simp [normTag_eq_some, hl]

theorem getCount_of_mem :
    ∀ (A : List (String × Nat)), (A.map Prod.fst).Nodup →
      ∀ {l : String} {c : Nat}, (l, c) ∈ A → getCount A l = c := by
  intro A
  induction A with
  | nil => intro _ l c h; cases h
  | cons p rest ih =>
    obtain ⟨k, v⟩ := p
    intro hnd l c hmem
    rw [List.map_cons, List.nodup_cons] at hnd
    rcases List.mem_cons.mp hmem with heq | hmem'
    · injection heq with h1 h2
      subst h1; subst h2
      simp [getCount]
    · have hkl : ¬ k = l := by
        rintro rfl
        exact hnd.1 (List.mem_map.mpr ⟨(k, c), hmem', rfl⟩)
      simp [getCount, hkl, ih hnd.2 hmem']

theorem getCount_mem_keys :
    ∀ (A : List (String × Nat)) {l : String},
      l ∈ A.map Prod.fst → (l, getCount A l) ∈ A := by
  intro A
  induction A with
  | nil => intro l h; cases h
  | cons p rest ih =>
    obtain ⟨k, v⟩ := p
    intro l hmem
    by_cases hkl : k = l
    · subst hkl
      simp [getCount]
    · rcases List.mem_cons.mp hmem with heq | hmem'
      · exact (hkl heq.symm).elim
      · simp only [getCount, if_neg hkl]
        exact List.mem_cons_of_mem _ (ih hmem')

theorem le_maxCnt :
    ∀ (A : List (String × Nat)) (p : String × Nat), p ∈ A → p.2 ≤ maxCnt A := by
  intro A
  induction A with
  | nil => intro p h; cases h
  | cons q rest ih =>
    intro p hp
    rcases List.mem_cons.mp hp with rfl | hp'
    · exact le_max_left _ _
    · exact le_trans (ih p hp') (le_max_right _ _)

theorem maxCnt_attained :
    ∀ (A : List (String × Nat)), A ≠ [] → ∃ p ∈ A, p.2 = maxCnt A := by
  intro A
  induction A with
  | nil => intro h; exact (h rfl).elim
  | cons q rest ih =>
    intro _
    rcases eq_or_ne rest [] with rfl | hne
    · exact ⟨q, List.mem_cons_self _ _, by simp [maxCnt]⟩
    · rcases ih hne with ⟨p, hp, hpmax⟩
      by_cases h : maxCnt rest ≤ q.2
      · exact ⟨q, List.mem_cons_self _ _, (max_eq_left h).symm⟩
      · refine ⟨p, List.mem_cons_of_mem _ hp, ?_⟩
        rw [hpmax, maxCnt, max_eq_right (le_of_not_le h)]

theorem pickAux_of_all_le :
    ∀ (A : List (String × Nat)) (b : Option String) (c : Nat),
      (∀ p ∈ A, p.2 ≤ c) → pickAux b c A = b := by
  intro A
  induction A with
  | nil => intro b c _; rfl
  | cons p rest ih =>
    obtain ⟨l, cnt⟩ := p
    intro b c h
    have hle : cnt ≤ c := h (l, cnt) (List.mem_cons_self _ _)
    rw [pickAux, if_neg (not_lt.mpr hle)]
    exact ih b c fun p hp => h p (List.mem_cons_of_mem _ hp)

theorem pickAux_finds_max :
    ∀ (A : List (String × Nat)) (b : Option String) (c : Nat), c < maxCnt A →
      pickAux b c A = (A.find? fun p => decide (maxCnt A ≤ p.2)).map Prod.fst := by
  intro A
  induction A with
  | nil => intro b c h; simp [maxCnt] at h
  | cons p rest ih =>
    intro b c h
    obtain ⟨l, cnt⟩ := p
    by_cases hc : c < cnt
    · by_cases hr : cnt < maxCnt rest
      · have hM : maxCnt ((l, cnt) :: rest) = maxCnt rest := by
          rw [maxCnt, max_eq_right (le_of_lt hr)]
        simp only [hM]
        have hhead : List.find? (fun p => decide (maxCnt rest ≤ p.2)) ((l, cnt) :: rest)
            = List.find? (fun p => decide (maxCnt rest ≤ p.2)) rest := by
          apply List.find?_cons_of_neg
          simp only [decide_eq_true_eq]
          omega
        rw [pickAux, if_pos hc, ih (some l) cnt hr, hhead]
      · have hcnt' : maxCnt rest ≤ cnt := not_lt.mp hr
        have hall : ∀ p ∈ rest, p.2 ≤ cnt :=
          fun p hp => le_trans (le_maxCnt rest p hp) hcnt'
        have hM : maxCnt ((l, cnt) :: rest) = cnt := by
          rw [maxCnt, max_eq_left hcnt']
        simp only [hM]
        have hhead : List.find? (fun p => decide (cnt ≤ p.2)) ((l, cnt) :: rest)
            = some (l, cnt) := by
          apply List.find?_cons_of_pos
          simp
        rw [pickAux, if_pos hc, pickAux_of_all_le rest (some l) cnt hall, hhead]
        rfl
    · have hcnt : cnt ≤ c := not_lt.mp hc
      have hr : c < maxCnt rest := by
        rw [maxCnt] at h
        exact (lt_max_iff.mp h).resolve_left hc
      have hM : maxCnt ((l, cnt) :: rest) = maxCnt rest := by
        rw [maxCnt, max_eq_right (le_trans hcnt (le_of_lt hr))]
      simp only [hM]
      have hhead : List.find? (fun p => decide (maxCnt rest ≤ p.2)) ((l, cnt) :: rest)
          = List.find? (fun p => decide (maxCnt rest ≤ p.2)) rest := by
        apply List.find?_cons_of_neg
        simp only [decide_eq_true_eq]
        omega
      rw [pickAux, if_neg hc, ih b c hr, hhead]

theorem find?_first_sublist {α : Type} :
    ∀ (L : List α) (q : α → Bool) (a b : α),
      L.find? q = some a → b ∈ L → q b = true → b ≠ a → List.Sublist [a, b] L := by
  intro L
  induction L with
  | nil => intro q a b h; cases h
  | cons x rest ih =>
    intro q a b hfind hmem hqb hne
    by_cases hqx : q x = true
    · rw [List.find?_cons_of_pos _ hqx] at hfind
      injection hfind with hxa
      subst hxa
      have hbrest : b ∈ rest := by
        rcases List.mem_cons.mp hmem with rfl | hb
        · exact (hne rfl).elim
        · exact hb
      exact (List.singleton_sublist.mpr hbrest).cons₂ _
    · rw [List.find?_cons_of_neg _ hqx] at hfind
      have hbx : b ≠ x := fun e => hqx (e ▸ hqb)
      have hbrest : b ∈ rest := by
        rcases List.mem_cons.mp hmem with rfl | hb
        · exact (hbx rfl).elim
        · exact hb
      exact (ih q a b hfind hbrest hqb hne).cons x

theorem rawTag_false_of_normTag_none {t : SonioxToken} {l : String}
    (h : normTag t = none) (hl : l ≠ "") :
    (decide (t.language = some l)) = false := by
  apply decide_eq_false
  intro he
  have := (normTag_eq_none.mp h) l he
  exact hl this

theorem rawTag_of_normTag {t : SonioxToken} {m : String} (h : normTag t = some m) :
    t.language = some m :=
  (normTag_eq_some.mp h).1

theorem mem_firstSeenAux_ne_empty {ts : List SonioxToken} {seen : List String}
    {l : String} (h : l ∈ firstSeenAux seen ts) : l ≠ "" := by
  rcases (mem_firstSeenAux ts seen l).mp h with ⟨_, t, _, hnt⟩
  exact (normTag_eq_some.mp hnt).2

theorem mem_firstSeenAux_not_seen {ts : List SonioxToken} {seen : List String}
    {l : String} (h : l ∈ firstSeenAux seen ts) : l ∉ seen :=
  ((mem_firstSeenAux ts seen l).mp h).1

theorem firstSeen_order_firstTagIdx :
    ∀ (ts : List SonioxToken) (seen : List String) (l l' : String),
      List.Sublist [l, l'] (firstSeenAux seen ts) →
      ts.findIdx (fun t => decide (t.language = some l)) <
        ts.findIdx (fun t => decide (t.language = some l')) := by
  intro ts
  induction ts with
  | nil =>
    intro seen l l' h
    rw [firstSeenAux] at h
    cases h
  | cons t ts ih =>
    intro seen l l' h
    have hmem_l : l ∈ firstSeenAux seen (t :: ts) := h.subset (by simp)
    have hmem_l' : l' ∈ firstSeenAux seen (t :: ts) := h.subset (by simp)
    have hl_ne : l ≠ "" := mem_firstSeenAux_ne_empty hmem_l
    have hl'_ne : l' ≠ "" := mem_firstSeenAux_ne_empty hmem_l'
    cases hnt : normTag t with
    | none =>
      simp only [firstSeenAux, hnt] at h
      have hpl : decide (t.language = some l) = false :=
        rawTag_false_of_normTag_none hnt hl_ne
      have hpl' : decide (t.language = some l') = false :=
        rawTag_false_of_normTag_none hnt hl'_ne
      simp only [List.findIdx_cons, hpl, hpl', cond_false]
      exact Nat.succ_lt_succ (ih seen l l' h)
    | some m =>
      have hraw : t.language = some m := rawTag_of_normTag hnt
      by_cases hms : m ∈ seen
      · simp only [firstSeenAux, hnt] at h
        rw [if_pos hms] at h
        have hlm : l ≠ m := by
          rintro rfl
          exact mem_firstSeenAux_not_seen (h.subset (by simp) :
            l ∈ firstSeenAux seen ts) hms
        have hl'm : l' ≠ m := by
          rintro rfl
          exact mem_firstSeenAux_not_seen (h.subset (by simp) :
            l' ∈ firstSeenAux seen ts) hms
        have hpl : decide (t.language = some l) = false := by
          apply decide_eq_false
          rw [hraw]
          intro he
          injection he with he'
          exact hlm he'.symm
        have hpl' : decide (t.language = some l') = false := by
          apply decide_eq_false
          rw [hraw]
          intro he
          injection he with he'
          exact hl'm he'.symm
        simp only [List.findIdx_cons, hpl, hpl', cond_false]
        exact Nat.succ_lt_succ (ih seen l l' h)
      · simp only [firstSeenAux, hnt] at h
        rw [if_neg hms] at h
        cases h with
        | cons _ h2 =>
          have hlm : l ≠ m := by
            rintro rfl
            exact mem_firstSeenAux_not_seen
              (h2.subset (by simp) : l ∈ firstSeenAux (l :: seen) ts)
              (List.mem_cons_self _ _)
          have hl'm : l' ≠ m := by
            rintro rfl
            exact mem_firstSeenAux_not_seen
              (h2.subset (by simp) : l' ∈ firstSeenAux (l' :: seen) ts)
              (List.mem_cons_self _ _)
          have hpl : decide (t.language = some l) = false := by
            apply decide_eq_false
            rw [hraw]
            intro he
            injection he with he'
            exact hlm he'.symm
          have hpl' : decide (t.language = some l') = false := by
            apply decide_eq_false
            rw [hraw]
            intro he
            injection he with he'
            exact hl'm he'.symm
          simp only [List.findIdx_cons, hpl, hpl', cond_false]
          exact Nat.succ_lt_succ (ih (m :: seen) l l' h2)
        | cons₂ _ h2 =>
          have hpl : decide (t.language = some l) = true := by
            rw [hraw]
            simp
          have hl'mem : l' ∈ firstSeenAux (l :: seen) ts :=
            h2.subset (by simp)
          have hl'm : l' ≠ l := by
            rintro rfl
            exact mem_firstSeenAux_not_seen hl'mem (List.mem_cons_self _ _)
          have hpl' : decide (t.language = some l') = false := by
            apply decide_eq_false
            rw [hraw]
            intro he
            injection he with he'
            exact hl'm he'.symm
          simp only [List.findIdx_cons, hpl, hpl', cond_false, cond_true]
          exact Nat.succ_pos _

/-! ### Characterization of the language selection -/

theorem tally_keys_firstSeen (tokens : List SonioxToken) :
    (tallyAux [] tokens).map Prod.fst = firstSeen tokens := by
  have h := keys_tallyAux tokens []
  simpa [firstSeen] using h

theorem tally_getCount (tokens : List SonioxToken) (l : String) :
    getCount (tallyAux [] tokens) l = tallyCnt tokens l := by
  have h := getCount_tallyAux l tokens []
  simpa [getCount] using h

theorem tally_entry_pos (tokens : List SonioxToken) {p : String × Nat}
    (hp : p ∈ tallyAux [] tokens) : 1 ≤ p.2 := by
  have hnd : ((tallyAux [] tokens).map Prod.fst).Nodup := by
    rw [tally_keys_firstSeen]
    exact nodup_firstSeenAux tokens []
  have hkey : p.1 ∈ (tallyAux [] tokens).map Prod.fst :=
    List.mem_map.mpr ⟨p, hp, rfl⟩
  have hfs : p.1 ∈ firstSeen tokens := by rwa [tally_keys_firstSeen] at hkey
  rcases (mem_firstSeenAux tokens [] p.1).mp hfs with ⟨_, t, htm, hnt⟩
  have hpos : 0 < tallyCnt tokens p.1 := tallyCnt_pos.mpr ⟨t, htm, hnt⟩
  have hget : getCount (tallyAux [] tokens) p.1 = p.2 := by
    rcases p with ⟨l, c⟩
    exact getCount_of_mem _ hnd hp
  rw [tally_getCount] at hget
  omega

theorem getLanguage_some_of_ne_nil (tokens : List SonioxToken)
    (hne : tallyAux [] tokens ≠ []) :
    ∃ x, getLanguageFromTokens (some tokens) = some x := by
  have hmax : 0 < maxCnt (tallyAux [] tokens) := by
    rcases List.exists_mem_of_ne_nil _ hne with ⟨p, hp⟩
    have h1 := tally_entry_pos tokens hp
    have h2 := le_maxCnt _ p hp
    omega
  have hpick := pickAux_finds_max (tallyAux [] tokens) none 0 hmax
  rcases maxCnt_attained _ hne with ⟨p, hp, hpm⟩
  cases hfind : (tallyAux [] tokens).find?
      (fun p => decide (maxCnt (tallyAux [] tokens) ≤ p.2)) with
  | none =>
    exfalso
    have := List.find?_eq_none.mp hfind p hp
    simp [hpm] at this
  | some q =>
    refine ⟨q.1, ?_⟩
    rw [getLanguageFromTokens, hpick, hfind]
    rfl

theorem getLanguage_none_iff (tokens : List SonioxToken) :
    getLanguageFromTokens (some tokens) = none ↔
      ∀ t ∈ tokens, ∀ l, t.language = some l → l = "" := by
  constructor
  · intro h
    intro t htm l hl
    by_contra hne
    have hnt : normTag t = some l := normTag_eq_some.mpr ⟨hl, hne⟩
    have hfs : l ∈ firstSeen tokens :=
      (mem_firstSeenAux tokens [] l).mpr ⟨by simp, t, htm, hnt⟩
    have hkeys : l ∈ (tallyAux [] tokens).map Prod.fst := by
      rwa [tally_keys_firstSeen]
    have hnenil : tallyAux [] tokens ≠ [] := by
      intro hnil
      rw [hnil] at hkeys
      simp at hkeys
    rcases getLanguage_some_of_ne_nil tokens hnenil with ⟨x, hx⟩
    rw [h] at hx
    cases hx
  · intro h
    have hfs : firstSeen tokens = [] := by
      by_contra hne
      rcases List.exists_mem_of_ne_nil _ hne with ⟨l, hl⟩
      rcases (mem_firstSeenAux tokens [] l).mp hl with ⟨_, t, htm, hnt⟩
      rcases normTag_eq_some.mp hnt with ⟨hraw, hlne⟩
      exact hlne (h t htm l hraw)
    have hnil : tallyAux [] tokens = [] := by
      have := tally_keys_firstSeen tokens
      rw [hfs] at this
      exact List.map_eq_nil_iff.mp this
    rw [getLanguageFromTokens, hnil]
    rfl

theorem getLanguage_some_spec (tokens : List SonioxToken) (l : String)
    (h : getLanguageFromTokens (some tokens) = some l) :
    l ≠ "" ∧ 0 < langCount tokens l ∧
    (∀ l2, l2 ≠ "" → langCount tokens l2 ≤ langCount tokens l) ∧
    (∀ l2, l2 ≠ "" → l2 ≠ l → langCount tokens l2 = langCount tokens l →
      firstTagIdx tokens l < firstTagIdx tokens l2) := by
  have hnd : ((tallyAux [] tokens).map Prod.fst).Nodup := by
    rw [tally_keys_firstSeen]
    exact nodup_firstSeenAux tokens []
  have hnenil : tallyAux [] tokens ≠ [] := by
    intro hnil
    rw [getLanguageFromTokens, hnil] at h
    cases h
  have hmax : 0 < maxCnt (tallyAux [] tokens) := by
    rcases List.exists_mem_of_ne_nil _ hnenil with ⟨p, hp⟩
    have h1 := tally_entry_pos tokens hp
    have h2 := le_maxCnt _ p hp
    omega
  rw [getLanguageFromTokens, pickAux_finds_max (tallyAux [] tokens) none 0 hmax] at h
  rcases Option.map_eq_some'.mp h with ⟨p, hfind, hp1⟩
  have hpmem : p ∈ tallyAux [] tokens := List.mem_of_find?_eq_some hfind
  have hpred : maxCnt (tallyAux [] tokens) ≤ p.2 := by
    have := List.find?_some hfind
    simpa using this
  have hple : p.2 ≤ maxCnt (tallyAux [] tokens) := le_maxCnt _ p hpmem
  have hpeq : p.2 = maxCnt (tallyAux [] tokens) := le_antisymm hple hpred
  have hlkeys : l ∈ (tallyAux [] tokens).map Prod.fst :=
    List.mem_map.mpr ⟨p, hpmem, hp1⟩
  have hlfs : l ∈ firstSeen tokens := by rwa [tally_keys_firstSeen] at hlkeys
  have hlne : l ≠ "" := mem_firstSeenAux_ne_empty hlfs
  have hgetl : getCount (tallyAux [] tokens) l = p.2 := by
    rcases p with ⟨pl, pc⟩
    cases hp1
    exact getCount_of_mem _ hnd hpmem
  have htallyl : tallyCnt tokens l = maxCnt (tallyAux [] tokens) := by
    rw [← tally_getCount tokens l, hgetl, hpeq]
  have hlangl : langCount tokens l = maxCnt (tallyAux [] tokens) := by
    rw [← tallyCnt_eq_langCount hlne, htallyl]
  refine ⟨hlne, ?_, ?_, ?_⟩
  · rw [hlangl]; exact hmax
  · intro l2 hl2ne
    rw [← tallyCnt_eq_langCount hl2ne, hlangl]
    by_cases hz : 0 < tallyCnt tokens l2
    · rcases tallyCnt_pos.mp hz with ⟨t, htm, hnt⟩
      have hl2fs : l2 ∈ firstSeen tokens :=
        (mem_firstSeenAux tokens [] l2).mpr ⟨by simp, t, htm, hnt⟩
      have hl2keys : l2 ∈ (tallyAux [] tokens).map Prod.fst := by
        rwa [tally_keys_firstSeen]
      have hentry := getCount_mem_keys _ hl2keys
      have := le_maxCnt _ _ hentry
      simpa [tally_getCount] using this
    · omega
  · intro l2 hl2ne hl2l hcnt
    have htally2 : tallyCnt tokens l2 = maxCnt (tallyAux [] tokens) := by
      rw [tallyCnt_eq_langCount hl2ne, hcnt, hlangl]
    have hz : 0 < tallyCnt tokens l2 := by rw [htally2]; exact hmax
    rcases tallyCnt_pos.mp hz with ⟨t, htm, hnt⟩
    have hl2fs : l2 ∈ firstSeen tokens :=
      (mem_firstSeenAux tokens [] l2).mpr ⟨by simp, t, htm, hnt⟩
    have hl2keys : l2 ∈ (tallyAux [] tokens).map Prod.fst := by
      rwa [tally_keys_firstSeen]
    have hentry := getCount_mem_keys _ hl2keys
    have hpred2 : (fun p => decide (maxCnt (tallyAux [] tokens) ≤ p.2))
        (l2, getCount (tallyAux [] tokens) l2) = true := by
      simp only [decide_eq_true_eq]
      rw [tally_getCount, htally2]
    have hne' : (l2, getCount (tallyAux [] tokens) l2) ≠ p := by
      intro he
      apply hl2l
      rw [← hp1, ← he]
    have hsub := find?_first_sublist _ _ p (l2, getCount (tallyAux [] tokens) l2)
      hfind hentry hpred2 hne'
    have hsubkeys := hsub.map Prod.fst
    rw [tally_keys_firstSeen] at hsubkeys
    simp only [List.map_cons, List.map_nil, hp1] at hsubkeys
    exact firstSeen_order_firstTagIdx tokens [] l l2 hsubkeys

end Soniox

/-! ## Witness data

Concrete environments mirroring the repository's test fixture
(`soniox-transcription-model.test.ts`): upload returns `file-123`, submission
returns `transcription-123`, the first poll reports `completed` with
`audio_duration_ms: 16079`, and the transcript is `Hello` with two tokens. -/

namespace SonioxWitness

open Soniox

def tokHel : SonioxToken :=
  { text := "Hel", start_ms := some 10, end_ms := some 90,
    confidence := some (95 / 100), language := some "en" }

def tokLo : SonioxToken :=
  { text := "lo", start_ms := some 110, end_ms := some 160,
    confidence := some (98 / 100), language := some "en" }

def envHello : Env :=
  { uploadResult := .ok "file-123"
    submitResult := .ok { id := "transcription-123", status := some "queued" }
    pollResults := fun _ => .ok
      { id := "transcription-123", status := "completed"
        audio_duration_ms := some 16079 }
    transcriptResult := .ok
      { id := "transcription-123", text := some "Hello"
        tokens := some [tokHel, tokLo] }
    deleteTranscriptionResult := .ok ()
    deleteFileResult := .ok ()
    elapsedMsAt := fun _ => 0
    abortedAt := fun _ => false }

def resHello : TranscriptionResult :=
  { text := "Hello"
    segments :=
      [ { text := "Hel", startSecond := 10 / 1000, endSecond := 90 / 1000 },
        { text := "lo", startSecond := 110 / 1000, endSecond := 160 / 1000 } ]
    language := some "en"
    durationInSeconds := some (16079 / 1000)
    warnings := []
    metadataTokens := [tokHel, tokLo] }

example : (SonioxCore.doGenerate "stt-async-v3" {} envHello 3).outcome =
    .ok resHello := by rfl

end SonioxWitness

/-! ## Claims -/

/-- C1: for every token sequence returned by the transcript fetch, the
result's segments are exactly the tokens having both `start_ms` and `end_ms`
present, kept in their original relative order, each mapped to
`{text unchanged, startSecond = start_ms/1000, endSecond = end_ms/1000}`;
tokens lacking either time are excluded from segments but retained verbatim in
the raw token list exposed in `providerMetadata.soniox.tokens`. -/
theorem C1_segments_from_tokens (modelId : String)
    (opts : Soniox.SonioxProviderOptions) (env : Soniox.Env) (fuel : Nat)
    (res : Soniox.TranscriptionResult)
    (h : (SonioxCore.doGenerate modelId opts env fuel).outcome = .ok res) :
    ∃ tr, env.transcriptResult = .ok tr ∧
      res.segments = ((tr.tokens.getD []).filter
          (fun t => t.start_ms.isSome && t.end_ms.isSome)).map
        (fun t =>
          { text := t.text
            startSecond := t.start_ms.getD 0 / 1000
            endSecond := t.end_ms.getD 0 / 1000 }) ∧
      res.metadataTokens = tr.tokens.getD [] := by
  obtain ⟨tr, htr, _, hseg, _, hmeta⟩ :=
    SonioxCore.doGenerate_ok_shape modelId opts env fuel res h
  exact ⟨tr, htr, by rw [hseg]; rfl, hmeta⟩

/-- Witness for C1 at the test-fixture environment. -/
theorem C1_segments_from_tokens_witness :
    ∃ tr, SonioxWitness.envHello.transcriptResult = .ok tr ∧
      SonioxWitness.resHello.segments = ((tr.tokens.getD []).filter
          (fun t => t.start_ms.isSome && t.end_ms.isSome)).map
        (fun t =>
          { text := t.text
            startSecond := t.start_ms.getD 0 / 1000
            endSecond := t.end_ms.getD 0 / 1000 }) ∧
      SonioxWitness.resHello.metadataTokens = tr.tokens.getD [] :=
  C1_segments_from_tokens "stt-async-v3" {} SonioxWitness.envHello 3
    SonioxWitness.resHello (by rfl)

/-- C2: the result's language is the token language tag with strictly highest
occurrence count; ties go to the earliest-occurring tag among the maximal
ones; empty or absent tags never win; with no non-empty tag the language is
undefined. -/
theorem C2_primary_language (modelId : String)
    (opts : Soniox.SonioxProviderOptions) (env : Soniox.Env) (fuel : Nat)
    (tokens : List Soniox.SonioxToken) :
    (∀ res, (SonioxCore.doGenerate modelId opts env fuel).outcome = .ok res →
        ∃ tr, env.transcriptResult = .ok tr ∧
          res.language = Soniox.getLanguageFromTokens (some (tr.tokens.getD []))) ∧
    (Soniox.getLanguageFromTokens (some tokens) = none ↔
        ∀ t ∈ tokens, ∀ l, t.language = some l → l = "") ∧
    (∀ l, Soniox.getLanguageFromTokens (some tokens) = some l →
        l ≠ "" ∧ 0 < Soniox.langCount tokens l ∧
        (∀ l2, l2 ≠ "" → Soniox.langCount tokens l2 ≤ Soniox.langCount tokens l) ∧
        (∀ l2, l2 ≠ "" → l2 ≠ l →
          Soniox.langCount tokens l2 = Soniox.langCount tokens l →
          Soniox.firstTagIdx tokens l < Soniox.firstTagIdx tokens l2)) := by
  refine ⟨?_, Soniox.getLanguage_none_iff tokens,
    fun l hl => Soniox.getLanguage_some_spec tokens l hl⟩
  intro res h
  obtain ⟨tr, htr, _, _, hlang, _⟩ :=
    SonioxCore.doGenerate_ok_shape modelId opts env fuel res h
  exact ⟨tr, htr, hlang⟩

/-- Witness for C2: the fixture run detects `en`, and on a tie (`en` and `es`
both twice) the earliest-occurring tag wins while the empty tag never does. -/
theorem C2_primary_language_witness :
    (∃ tr, SonioxWitness.envHello.transcriptResult = .ok tr ∧
      SonioxWitness.resHello.language =
        Soniox.getLanguageFromTokens (some (tr.tokens.getD []))) ∧
    (0 < Soniox.langCount
        [{ text := "a", language := some "en" },
         { text := "b", language := some "es" },
         { text := "c", language := some "es" },
         { text := "d", language := some "en" },
         { text := "e", language := some "" }] "en" ∧
      Soniox.firstTagIdx
        [{ text := "a", language := some "en" },
         { text := "b", language := some "es" },
         { text := "c", language := some "es" },
         { text := "d", language := some "en" },
         { text := "e", language := some "" }] "en" <
      Soniox.firstTagIdx
        [{ text := "a", language := some "en" },
         { text := "b", language := some "es" },
         { text := "c", language := some "es" },
         { text := "d", language := some "en" },
         { text := "e", language := some "" }] "es") := by
  constructor
  · exact (C2_primary_language "stt-async-v3" {} SonioxWitness.envHello 3 []).1
      SonioxWitness.resHello (by rfl)
  · have h := (C2_primary_language "stt-async-v3" {} SonioxWitness.envHello 3
      [{ text := "a", language := some "en" },
       { text := "b", language := some "es" },
       { text := "c", language := some "es" },
       { text := "d", language := some "en" },
       { text := "e", language := some "" }]).2.2 "en" (by decide)
    exact ⟨h.2.1, h.2.2.2 "es" (by decide) (by decide) (by decide)⟩

/-- Environment for the named revision's witnesses. -/
def SonioxWitness.envNamed : SonioxNamed.NEnv :=
  { uploadResult := .ok "file-123"
    submitResult := .ok { id := "transcription-123", status := some "queued" }
    pollResults := fun _ => .ok
      { id := "transcription-123", status := "completed"
        audio_duration_ms := some 16079 }
    transcriptResult := .ok
      { id := "transcription-123", text := some "Hello"
        tokens := some [SonioxWitness.tokHel, SonioxWitness.tokLo] }
    abortedAt := fun _ => false }

/-- C4: supplying both a remote audio reference (`audioUrl`) and an existing
file identifier (`fileId`) makes `doGenerate` fail with the configuration
error and perform zero network calls. -/
theorem C4_conflicting_audio_sources (modelId : String)
    (opts : Soniox.SonioxProviderOptions) (env : SonioxNamed.NEnv) (fuel : Nat)
    (u f : String) (hu : opts.audioUrl = some u) (hune : u ≠ "")
    (hf : opts.fileId = some f) (hfne : f ≠ "") :
    SonioxNamed.doGenerate modelId opts env fuel =
      { outcome := .error (.config "Provide either audioUrl or fileId, not both.")
        trace := [] } := by
  have h1 : SonioxNamed.truthyStr opts.audioUrl = true := by
    rw [hu]
    simp [SonioxNamed.truthyStr, hune]
  have h2 : SonioxNamed.truthyStr opts.fileId = true := by
    rw [hf]
    simp [SonioxNamed.truthyStr, hfne]
  rw [SonioxNamed.doGenerate]
  simp [h1, h2]

/-- Witness for C4: both sources supplied, the call is rejected with no
request issued. -/
theorem C4_conflicting_audio_sources_witness :
    SonioxNamed.doGenerate "stt-async-v3"
      { audioUrl := some "https://example.com/a.mp3", fileId := some "file-9" }
      SonioxWitness.envNamed 3 =
      { outcome := .error (.config "Provide either audioUrl or fileId, not both.")
        trace := [] } :=
  C4_conflicting_audio_sources "stt-async-v3"
    { audioUrl := some "https://example.com/a.mp3", fileId := some "file-9" }
    SonioxWitness.envNamed 3 "https://example.com/a.mp3" "file-9"
    rfl (by decide) rfl (by decide)

/-- C7: when the caller supplies a remote audio reference, no request to the
upload endpoint is made, no remote file is referenced, and the submission
body carries that URL in its `audio_url` field. -/
theorem C7_audio_url_skips_upload (modelId : String)
    (opts : Soniox.SonioxProviderOptions) (env : SonioxNamed.NEnv) (fuel : Nat)
    (u : String) (hu : opts.audioUrl = some u) (hune : u ≠ "")
    (hf : opts.fileId = none) :
    (∀ b, Soniox.Request.uploadFile b ∉
        (SonioxNamed.doGenerate modelId opts env fuel).trace) ∧
    (∃ rest, (SonioxNamed.doGenerate modelId opts env fuel).trace =
        Soniox.Request.createTranscription
          (SonioxNamed.namedBody modelId opts (some u) none) true :: rest) ∧
    (SonioxNamed.namedBody modelId opts (some u) none).audio_url = some u ∧
    (SonioxNamed.namedBody modelId opts (some u) none).file_id = none := by
  have h1 : SonioxNamed.truthyStr opts.audioUrl = true := by
    rw [hu]
    simp [SonioxNamed.truthyStr, hune]
  have h2 : SonioxNamed.truthyStr opts.fileId = false := by
    rw [hf]
    rfl
  have hgen : SonioxNamed.doGenerate modelId opts env fuel =
      SonioxNamed.afterSource modelId opts env fuel opts.audioUrl opts.fileId [] := by
    rw [SonioxNamed.doGenerate]
    simp [h1, h2]
  obtain ⟨rest, htrace, hrest⟩ := SonioxNamed.afterSource_trace_shape modelId opts
    env fuel opts.audioUrl opts.fileId []
  refine ⟨?_, ⟨rest, ?_⟩, rfl, rfl⟩
  · intro b hmem
    rw [hgen, htrace] at hmem
    simp only [List.nil_append, List.mem_cons] at hmem
    rcases hmem with he | hmem
    · cases he
    · rcases hrest _ hmem with ⟨tid, he⟩ | ⟨tid, he⟩ <;> cases he
  · rw [hgen, htrace, hu, hf]
    simp

/-- Witness for C7 at the named-revision environment. -/
theorem C7_audio_url_skips_upload_witness :
    (∀ b, Soniox.Request.uploadFile b ∉
        (SonioxNamed.doGenerate "stt-async-v3"
          { audioUrl := some "https://example.com/a.mp3" }
          SonioxWitness.envNamed 3).trace) ∧
    (∃ rest, (SonioxNamed.doGenerate "stt-async-v3"
          { audioUrl := some "https://example.com/a.mp3" }
          SonioxWitness.envNamed 3).trace =
        Soniox.Request.createTranscription
          (SonioxNamed.namedBody "stt-async-v3"
            { audioUrl := some "https://example.com/a.mp3" }
            (some "https://example.com/a.mp3") none) true :: rest) ∧
    (SonioxNamed.namedBody "stt-async-v3"
        { audioUrl := some "https://example.com/a.mp3" }
        (some "https://example.com/a.mp3") none).audio_url =
      some "https://example.com/a.mp3" ∧
    (SonioxNamed.namedBody "stt-async-v3"
        { audioUrl := some "https://example.com/a.mp3" }
        (some "https://example.com/a.mp3") none).file_id = none :=
  C7_audio_url_skips_upload "stt-async-v3"
    { audioUrl := some "https://example.com/a.mp3" } SonioxWitness.envNamed 3
    "https://example.com/a.mp3" rfl (by decide) rfl

/-- Status record used by the job-failure witness. -/
def SonioxWitness.statusErr : Soniox.StatusResponse :=
  { id := "transcription-123", status := "error"
    error_message := some "bad audio" }

/-- Environment whose first poll reports the terminal `error` status. -/
def SonioxWitness.envJobError : Soniox.Env :=
  { uploadResult := .ok "file-123"
    submitResult := .ok { id := "transcription-123", status := some "queued" }
    pollResults := fun _ => .ok SonioxWitness.statusErr
    transcriptResult := .error { message := "unreachable" }
    deleteTranscriptionResult := .ok ()
    deleteFileResult := .ok ()
    elapsedMsAt := fun _ => 0
    abortedAt := fun _ => false }

/-- C6: a poll returning the terminal status `error` fails the call with a
job-failure error whose message carries the provider-supplied error message
(or the generic fallback), and no transcript fetch request is issued. -/
theorem C6_error_status_fails (modelId : String)
    (opts : Soniox.SonioxProviderOptions) (env : Soniox.Env) (fuel k : Nat)
    (fid : String) (created : Soniox.CreateResponse) (s : Soniox.StatusResponse)
    (hup : env.uploadResult = .ok fid)
    (hsub : env.submitResult = .ok created)
    (hclean : SonioxCore.cleanFor env 0 k)
    (hto : env.elapsedMsAt k ≤ SonioxCore.timeoutMs)
    (hab : env.abortedAt k = false)
    (hpoll : env.pollResults k = .ok s)
    (hst : s.status = "error")
    (hfuel : k < fuel) :
    (SonioxCore.doGenerate modelId opts env fuel).outcome =
      .error (.jobFailed
        ("Transcription failed: " ++ s.error_message.getD "Unknown error") s) ∧
    ∀ tid b, Soniox.Request.getTranscript tid b ∉
      (SonioxCore.doGenerate modelId opts env fuel).trace := by
  have hpl : SonioxCore.pollLoop env created.id 0 none fuel =
      (.failed (.jobFailed
          ("Transcription failed: " ++ s.error_message.getD "Unknown error") s),
        List.replicate k (.getStatus created.id true) ++
          [.getStatus created.id true]) := by
    rw [SonioxCore.pollLoop_skip env created.id k 0 none fuel hfuel hclean]
    rw [Nat.zero_add]
    rw [SonioxCore.pollLoop_entry_error env created.id k
      (SonioxCore.lastAfter env 0 none k) (fuel - k) s (by omega) hto hab hpoll hst]
  have ha := SonioxCore.attempt_poll_failed modelId opts env fuel fid created _ _
    hup hsub hpl
  rw [SonioxCore.doGenerate_eq, ha]
  constructor
  · simp
  · intro tid b hmem
    simp only [SonioxCore.finalize_trace] at hmem
    simp [List.mem_replicate] at hmem

/-- Witness for C6: failing job, no transcript fetch. -/
theorem C6_error_status_fails_witness :
    (SonioxCore.doGenerate "stt-async-v3" {} SonioxWitness.envJobError 3).outcome =
      .error (.jobFailed
        ("Transcription failed: " ++
          SonioxWitness.statusErr.error_message.getD "Unknown error")
        SonioxWitness.statusErr) ∧
    ∀ tid b, Soniox.Request.getTranscript tid b ∉
      (SonioxCore.doGenerate "stt-async-v3" {} SonioxWitness.envJobError 3).trace :=
  C6_error_status_fails "stt-async-v3" {} SonioxWitness.envJobError 3 0 "file-123"
    { id := "transcription-123", status := some "queued" } SonioxWitness.statusErr
    rfl rfl (fun j hj => absurd hj (Nat.not_lt_zero j)) (by decide) rfl rfl rfl
    (by omega)

/-- Environment that exceeds the poll timeout right away. -/
def SonioxWitness.envTimedOut : Soniox.Env :=
  { uploadResult := .ok "file-123"
    submitResult := .ok { id := "transcription-123", status := some "queued" }
    pollResults := fun _ => .ok { id := "transcription-123", status := "queued" }
    transcriptResult := .error { message := "unreachable" }
    deleteTranscriptionResult := .ok ()
    deleteFileResult := .ok ()
    elapsedMsAt := fun _ => 180001
    abortedAt := fun _ => false }

/-- C5: total poll duration is bounded by the hard 3-minute timeout, checked
before each poll attempt; exceeding it fails the call with a timeout error
carrying the last observed job status, while the cleanup still attempts
deletion of the created job and file (and no further status query is
issued: exactly `k` of them happen when the timeout hits at iteration `k`). -/
theorem C5_poll_timeout (modelId : String)
    (opts : Soniox.SonioxProviderOptions) (env : Soniox.Env) (fuel k : Nat)
    (fid : String) (created : Soniox.CreateResponse)
    (hup : env.uploadResult = .ok fid)
    (hsub : env.submitResult = .ok created)
    (hclean : SonioxCore.cleanFor env 0 k)
    (hto : SonioxCore.timeoutMs < env.elapsedMsAt k)
    (hfuel : k < fuel) :
    (SonioxCore.doGenerate modelId opts env fuel).outcome =
      .error (.pollTimedOut (SonioxCore.lastAfter env 0 none k)) ∧
    Soniox.Request.deleteTranscription created.id false ∈
      (SonioxCore.doGenerate modelId opts env fuel).trace ∧
    Soniox.Request.deleteFile fid false ∈
      (SonioxCore.doGenerate modelId opts env fuel).trace ∧
    (SonioxCore.doGenerate modelId opts env fuel).trace.countP
      (fun r => decide (r = Soniox.Request.getStatus created.id true)) = k := by
  have hpl : SonioxCore.pollLoop env created.id 0 none fuel =
      (.failed (.pollTimedOut (SonioxCore.lastAfter env 0 none k)),
        List.replicate k (.getStatus created.id true) ++ []) := by
    rw [SonioxCore.pollLoop_skip env created.id k 0 none fuel hfuel hclean]
    rw [Nat.zero_add]
    rw [SonioxCore.pollLoop_entry_timeout env created.id k
      (SonioxCore.lastAfter env 0 none k) (fuel - k) (by omega) hto]
  have ha := SonioxCore.attempt_poll_failed modelId opts env fuel fid created _ _
    hup hsub hpl
  rw [SonioxCore.doGenerate_eq, ha]
  refine ⟨by simp, ?_, ?_, ?_⟩
  · simp [SonioxCore.finalize_trace]
  · simp [SonioxCore.finalize_trace]
  · simp [SonioxCore.finalize_trace, List.countP_append, List.countP_cons,
      SonioxCore.countP_replicate]

/-- Witness for C5: immediate timeout with both deletions attempted. -/
theorem C5_poll_timeout_witness :
    (SonioxCore.doGenerate "stt-async-v3" {} SonioxWitness.envTimedOut 3).outcome =
      .error (.pollTimedOut (SonioxCore.lastAfter SonioxWitness.envTimedOut 0 none 0)) ∧
    Soniox.Request.deleteTranscription "transcription-123" false ∈
      (SonioxCore.doGenerate "stt-async-v3" {} SonioxWitness.envTimedOut 3).trace ∧
    Soniox.Request.deleteFile "file-123" false ∈
      (SonioxCore.doGenerate "stt-async-v3" {} SonioxWitness.envTimedOut 3).trace ∧
    (SonioxCore.doGenerate "stt-async-v3" {} SonioxWitness.envTimedOut 3).trace.countP
      (fun r => decide (r = Soniox.Request.getStatus "transcription-123" true)) = 0 :=
  C5_poll_timeout "stt-async-v3" {} SonioxWitness.envTimedOut 3 0 "file-123"
    { id := "transcription-123", status := some "queued" }
    rfl rfl (fun j hj => absurd hj (Nat.not_lt_zero j)) (by decide) (by omega)

/-- Environment aborted from the start, timeout not yet exceeded. -/
def SonioxWitness.envAborted : Soniox.Env :=
  { uploadResult := .ok "file-123"
    submitResult := .ok { id := "transcription-123", status := some "queued" }
    pollResults := fun _ => .ok { id := "transcription-123", status := "queued" }
    transcriptResult := .error { message := "unreachable" }
    deleteTranscriptionResult := .ok ()
    deleteFileResult := .ok ()
    elapsedMsAt := fun _ => 0
    abortedAt := fun _ => true }

/-- Environment where, at the top of iteration 0, the signal is already
aborted and the timeout is also already exceeded. -/
def SonioxWitness.envTimeoutAndAbort : Soniox.Env :=
  { uploadResult := .ok "file-123"
    submitResult := .ok { id := "transcription-123", status := some "queued" }
    pollResults := fun _ => .ok { id := "transcription-123", status := "queued" }
    transcriptResult := .error { message := "unreachable" }
    deleteTranscriptionResult := .ok ()
    deleteFileResult := .ok ()
    elapsedMsAt := fun _ => 180001
    abortedAt := fun _ => true }

/-- C9 counterexample: the claim says an aborted signal observed at the top of
a poll iteration raises a cancellation error, but the timeout check runs
first: with the signal aborted at iteration 0 and the timeout also exceeded,
the call raises the timeout error instead of a cancellation error. -/
theorem C9_timeout_shadows_abort_counterexample :
    SonioxWitness.envTimeoutAndAbort.abortedAt 0 = true ∧
    (SonioxCore.doGenerate "stt-async-v3" {}
        SonioxWitness.envTimeoutAndAbort 3).outcome =
      .error (.pollTimedOut none) ∧
    ∀ m, (SonioxCore.doGenerate "stt-async-v3" {}
        SonioxWitness.envTimeoutAndAbort 3).outcome ≠
      .error (.aborted m) := by
  refine ⟨rfl, rfl, ?_⟩
  intro m h
  injection h with h2
  simp at h2

/-- C9 (amended): at the top of every poll iteration, after the timeout check
and before the status query, the abort signal is checked; if it is aborted
there and the timeout has not been exceeded, the call raises the cancellation
error and issues no further status query (exactly `k` queries happen when the
abort is seen at iteration `k`). -/
theorem C9_abort_checked_before_status_query (modelId : String)
    (opts : Soniox.SonioxProviderOptions) (env : Soniox.Env) (fuel k : Nat)
    (fid : String) (created : Soniox.CreateResponse)
    (hup : env.uploadResult = .ok fid)
    (hsub : env.submitResult = .ok created)
    (hclean : SonioxCore.cleanFor env 0 k)
    (hto : env.elapsedMsAt k ≤ SonioxCore.timeoutMs)
    (hab : env.abortedAt k = true)
    (hfuel : k < fuel) :
    (SonioxCore.doGenerate modelId opts env fuel).outcome =
      .error (.aborted "Transcription request was aborted") ∧
    (SonioxCore.doGenerate modelId opts env fuel).trace.countP
      (fun r => decide (r = Soniox.Request.getStatus created.id true)) = k := by
  have hpl : SonioxCore.pollLoop env created.id 0 none fuel =
      (.failed (.aborted "Transcription request was aborted"),
        List.replicate k (.getStatus created.id true) ++ []) := by
    rw [SonioxCore.pollLoop_skip env created.id k 0 none fuel hfuel hclean]
    rw [Nat.zero_add]
    rw [SonioxCore.pollLoop_entry_abort env created.id k
      (SonioxCore.lastAfter env 0 none k) (fuel - k) (by omega) hto hab]
  have ha := SonioxCore.attempt_poll_failed modelId opts env fuel fid created _ _
    hup hsub hpl
  rw [SonioxCore.doGenerate_eq, ha]
  refine ⟨by simp, ?_⟩
  simp [SonioxCore.finalize_trace, List.countP_append, List.countP_cons,
    SonioxCore.countP_replicate]

/-- Witness for the amended C9: abort observed at iteration 0, cancellation
error raised, zero status queries. -/
theorem C9_abort_checked_before_status_query_witness :
    (SonioxCore.doGenerate "stt-async-v3" {} SonioxWitness.envAborted 3).outcome =
      .error (.aborted "Transcription request was aborted") ∧
    (SonioxCore.doGenerate "stt-async-v3" {} SonioxWitness.envAborted 3).trace.countP
      (fun r => decide (r = Soniox.Request.getStatus "transcription-123" true)) = 0 :=
  C9_abort_checked_before_status_query "stt-async-v3" {} SonioxWitness.envAborted
    3 0 "file-123" { id := "transcription-123", status := some "queued" }
    rfl rfl (fun j hj => absurd hj (Nat.not_lt_zero j)) (by decide) rfl (by omega)

/-- C10: the cleanup DELETE requests are issued without the caller's abort
signal attached (`withAbortSignal = false` on every delete request of any
run), so after the signal has fired and aborted the pipeline both cleanup
requests are still issued, and their outcomes do not depend on the abort
signal at all. -/
theorem C10_cleanup_without_abort_signal (modelId : String)
    (opts : Soniox.SonioxProviderOptions) (env : Soniox.Env) (fuel : Nat) :
    (∀ tid b, Soniox.Request.deleteTranscription tid b ∈
        (SonioxCore.doGenerate modelId opts env fuel).trace → b = false) ∧
    (∀ fid b, Soniox.Request.deleteFile fid b ∈
        (SonioxCore.doGenerate modelId opts env fuel).trace → b = false) ∧
    (∀ m, (SonioxCore.doGenerate modelId opts env fuel).outcome =
        .error (.aborted m) →
      ∃ fid tid, Soniox.Request.deleteTranscription tid false ∈
          (SonioxCore.doGenerate modelId opts env fuel).trace ∧
        Soniox.Request.deleteFile fid false ∈
          (SonioxCore.doGenerate modelId opts env fuel).trace) ∧
    (∀ ab tid fid, SonioxCore.finalize { env with abortedAt := ab } tid fid =
        SonioxCore.finalize env tid fid) := by
  refine ⟨?_, ?_, ?_, fun ab tid fid => rfl⟩
  · intro tid b hmem
    rw [SonioxCore.doGenerate_eq] at hmem
    rcases List.mem_append.mp hmem with h | h
    · exact absurd rfl
        ((SonioxCore.attempt_trace_no_delete modelId opts env fuel _ h).1 tid b)
    · rw [SonioxCore.finalize_trace] at h
      rcases List.mem_append.mp h with h2 | h2
      · cases hti : (SonioxCore.attempt modelId opts env fuel).transcriptionId with
        | none => rw [hti] at h2; simp at h2
        | some t =>
          rw [hti] at h2
          simp at h2
          exact h2.2
      · cases hfi : (SonioxCore.attempt modelId opts env fuel).fileId with
        | none => rw [hfi] at h2; simp at h2
        | some f => rw [hfi] at h2; simp at h2
  · intro fid b hmem
    rw [SonioxCore.doGenerate_eq] at hmem
    rcases List.mem_append.mp hmem with h | h
    · exact absurd rfl
        ((SonioxCore.attempt_trace_no_delete modelId opts env fuel _ h).2 fid b)
    · rw [SonioxCore.finalize_trace] at h
      rcases List.mem_append.mp h with h2 | h2
      · cases hti : (SonioxCore.attempt modelId opts env fuel).transcriptionId with
        | none => rw [hti] at h2; simp at h2
        | some t => rw [hti] at h2; simp at h2
      · cases hfi : (SonioxCore.attempt modelId opts env fuel).fileId with
        | none => rw [hfi] at h2; simp at h2
        | some f =>
          rw [hfi] at h2
          simp at h2
          exact h2.2
  · intro m hout
    rw [SonioxCore.doGenerate_eq] at hout
    cases ha : (SonioxCore.attempt modelId opts env fuel).result with
    | ok r =>
      rw [ha] at hout
      simp at hout
    | error e =>
      rw [ha] at hout
      simp at hout
      subst hout
      obtain ⟨fid, tid, hfi, hti⟩ :=
        SonioxCore.attempt_aborted_ids modelId opts env fuel m ha
      refine ⟨fid, tid, ?_, ?_⟩
      · rw [SonioxCore.doGenerate_eq]
        simp [SonioxCore.finalize_trace, hti, hfi]
      · rw [SonioxCore.doGenerate_eq]
        simp [SonioxCore.finalize_trace, hti, hfi]

/-- Witness for C10: an aborted run still issues and completes both
deletions, and the cleanup is insensitive to the abort signal. -/
theorem C10_cleanup_without_abort_signal_witness :
    (∃ fid tid, Soniox.Request.deleteTranscription tid false ∈
        (SonioxCore.doGenerate "stt-async-v3" {} SonioxWitness.envAborted 3).trace ∧
      Soniox.Request.deleteFile fid false ∈
        (SonioxCore.doGenerate "stt-async-v3" {} SonioxWitness.envAborted 3).trace) ∧
    SonioxCore.finalize
        { SonioxWitness.envAborted with abortedAt := fun _ => false }
        (some "transcription-123") (some "file-123") =
      SonioxCore.finalize SonioxWitness.envAborted
        (some "transcription-123") (some "file-123") := by
  have h := C10_cleanup_without_abort_signal "stt-async-v3" {}
    SonioxWitness.envAborted 3
  exact ⟨h.2.2.1 "Transcription request was aborted" (by rfl), h.2.2.2 _ _ _⟩

/-- Environment whose job deletion fails after a successful transcription. -/
def SonioxWitness.envDeleteFail : Soniox.Env :=
  { SonioxWitness.envHello with
    deleteTranscriptionResult := .error "HTTP 500 Internal Server Error" }

/-- Expected result of the `envDeleteFail` run: the successful result carrying
exactly one warning for the failed job deletion. -/
def SonioxWitness.resDelFail : Soniox.TranscriptionResult :=
  { SonioxWitness.resHello with
    warnings :=
      [{ type := "other"
         message := "Failed to auto-delete " ++ ("transcription " ++ "transcription-123")
           ++ ": " ++ "HTTP 500 Internal Server Error" }] }

/-- C3: each cleanup deletion is best-effort and never raises: a deletion
failure becomes exactly one warning; the two deletions are independent and
each is attempted exactly when its resource was created, on every exit path;
the try block's outcome is surfaced unchanged (success stays success even
when deletions fail), and on success the result carries exactly one warning
per failed deletion. -/
theorem C3_cleanup_best_effort (modelId : String)
    (opts : Soniox.SonioxProviderOptions) (env : Soniox.Env) (fuel : Nat) :
    (∀ tid, (SonioxCore.attempt modelId opts env fuel).transcriptionId = some tid →
        (SonioxCore.doGenerate modelId opts env fuel).trace.countP
          (fun r => decide (r = Soniox.Request.deleteTranscription tid false)) = 1) ∧
    ((SonioxCore.attempt modelId opts env fuel).transcriptionId = none →
        ∀ tid b, Soniox.Request.deleteTranscription tid b ∉
          (SonioxCore.doGenerate modelId opts env fuel).trace) ∧
    (∀ fid, (SonioxCore.attempt modelId opts env fuel).fileId = some fid →
        (SonioxCore.doGenerate modelId opts env fuel).trace.countP
          (fun r => decide (r = Soniox.Request.deleteFile fid false)) = 1) ∧
    ((SonioxCore.attempt modelId opts env fuel).fileId = none →
        ∀ fid b, Soniox.Request.deleteFile fid b ∉
          (SonioxCore.doGenerate modelId opts env fuel).trace) ∧
    (∀ e, (SonioxCore.attempt modelId opts env fuel).result = .error e →
        (SonioxCore.doGenerate modelId opts env fuel).outcome = .error e) ∧
    (∀ r, (SonioxCore.attempt modelId opts env fuel).result = .ok r →
        (SonioxCore.doGenerate modelId opts env fuel).outcome = .ok
          { r with warnings := r.warnings ++
              (SonioxCore.finalize env
                (SonioxCore.attempt modelId opts env fuel).transcriptionId
                (SonioxCore.attempt modelId opts env fuel).fileId).1 }) ∧
    (∀ res, (SonioxCore.doGenerate modelId opts env fuel).outcome = .ok res →
        res.warnings.length =
          (if (SonioxCore.attempt modelId opts env fuel).transcriptionId.isSome &&
              SonioxCore.deleteFailed env.deleteTranscriptionResult
            then 1 else 0) +
          (if (SonioxCore.attempt modelId opts env fuel).fileId.isSome &&
              SonioxCore.deleteFailed env.deleteFileResult
            then 1 else 0)) := by
  refine ⟨?_, ?_, ?_, ?_, ?_, ?_, ?_⟩
  · intro tid hti
    have h0 : (SonioxCore.attempt modelId opts env fuel).trace.countP
        (fun r => decide (r = Soniox.Request.deleteTranscription tid false)) = 0 := by
      rw [List.countP_eq_zero]
      intro r hr
      simp only [decide_eq_true_eq]
      exact (SonioxCore.attempt_trace_no_delete modelId opts env fuel r hr).1 tid false
    rw [SonioxCore.doGenerate_eq]
    show ((SonioxCore.attempt modelId opts env fuel).trace ++
        (SonioxCore.finalize env
          (SonioxCore.attempt modelId opts env fuel).transcriptionId
          (SonioxCore.attempt modelId opts env fuel).fileId).2).countP
        (fun r => decide (r = Soniox.Request.deleteTranscription tid false)) = 1
    rw [List.countP_append, h0, SonioxCore.finalize_trace, hti]
    cases hfi : (SonioxCore.attempt modelId opts env fuel).fileId with
    | none => simp
    | some f => simp
  · intro hti tid b hmem
    rw [SonioxCore.doGenerate_eq] at hmem
    rcases List.mem_append.mp hmem with h | h
    · exact absurd rfl
        ((SonioxCore.attempt_trace_no_delete modelId opts env fuel _ h).1 tid b)
    · rw [SonioxCore.finalize_trace, hti] at h
      cases hfi : (SonioxCore.attempt modelId opts env fuel).fileId with
      | none => rw [hfi] at h; simp at h
      | some f => rw [hfi] at h; simp at h
  · intro fid hfi
    have h0 : (SonioxCore.attempt modelId opts env fuel).trace.countP
        (fun r => decide (r = Soniox.Request.deleteFile fid false)) = 0 := by
      rw [List.countP_eq_zero]
      intro r hr
      simp only [decide_eq_true_eq]
      exact (SonioxCore.attempt_trace_no_delete modelId opts env fuel r hr).2 fid false
    rw [SonioxCore.doGenerate_eq]
    show ((SonioxCore.attempt modelId opts env fuel).trace ++
        (SonioxCore.finalize env
          (SonioxCore.attempt modelId opts env fuel).transcriptionId
          (SonioxCore.attempt modelId opts env fuel).fileId).2).countP
        (fun r => decide (r = Soniox.Request.deleteFile fid false)) = 1
    rw [List.countP_append, h0, SonioxCore.finalize_trace, hfi]
    cases hti : (SonioxCore.attempt modelId opts env fuel).transcriptionId with
    | none => simp
    | some t => simp
  · intro hfi fid b hmem
    rw [SonioxCore.doGenerate_eq] at hmem
    rcases List.mem_append.mp hmem with h | h
    · exact absurd rfl
        ((SonioxCore.attempt_trace_no_delete modelId opts env fuel _ h).2 fid b)
    · rw [SonioxCore.finalize_trace, hfi] at h
      cases hti : (SonioxCore.attempt modelId opts env fuel).transcriptionId with
      | none => rw [hti] at h; simp at h
      | some t => rw [hti] at h; simp at h
  · intro e he
    rw [SonioxCore.doGenerate_eq, he]
  · intro r hr
    rw [SonioxCore.doGenerate_eq, hr]
  · intro res hres
    rw [SonioxCore.doGenerate_eq] at hres
    cases ha : (SonioxCore.attempt modelId opts env fuel).result with
    | error e =>
      rw [ha] at hres
      simp at hres
    | ok r =>
      rw [ha] at hres
      simp at hres
      obtain ⟨tr, htr, _, _, _, hw, _⟩ :=
        SonioxCore.attempt_ok_shape modelId opts env fuel r ha
      rw [← hres]
      show (r.warnings ++
          (SonioxCore.finalize env
            (SonioxCore.attempt modelId opts env fuel).transcriptionId
            (SonioxCore.attempt modelId opts env fuel).fileId).1).length = _
      rw [hw, SonioxCore.finalize_warnings]
      cases hti : (SonioxCore.attempt modelId opts env fuel).transcriptionId with
      | none =>
        cases hfi : (SonioxCore.attempt modelId opts env fuel).fileId with
        | none => simp
        | some f => simp [SonioxCore.tryDeleteResource_length]
      | some t =>
        cases hfi : (SonioxCore.attempt modelId opts env fuel).fileId with
        | none => simp [SonioxCore.tryDeleteResource_length]
        | some f => simp [SonioxCore.tryDeleteResource_length]

/-- Witness for C3: a successful run whose job deletion fails yields exactly
one delete request for the job and exactly one warning on the returned
result. -/
theorem C3_cleanup_best_effort_witness :
    (SonioxCore.doGenerate "stt-async-v3" {} SonioxWitness.envDeleteFail 3).trace.countP
      (fun r => decide
        (r = Soniox.Request.deleteTranscription "transcription-123" false)) = 1 ∧
    SonioxWitness.resDelFail.warnings.length =
      (if (SonioxCore.attempt "stt-async-v3" {}
            SonioxWitness.envDeleteFail 3).transcriptionId.isSome &&
          SonioxCore.deleteFailed SonioxWitness.envDeleteFail.deleteTranscriptionResult
        then 1 else 0) +
      (if (SonioxCore.attempt "stt-async-v3" {}
            SonioxWitness.envDeleteFail 3).fileId.isSome &&
          SonioxCore.deleteFailed SonioxWitness.envDeleteFail.deleteFileResult
        then 1 else 0) := by
  have h := C3_cleanup_best_effort "stt-async-v3" {} SonioxWitness.envDeleteFail 3
  exact ⟨h.1 "transcription-123" (by rfl),
    h.2.2.2.2.2.2 SonioxWitness.resDelFail (by rfl)⟩

/-- C8 (code-bug evidence): the options schema documents
`autoDeleteTranscription` / `autoDeleteFile` as disabling the per-resource
deletion (default `true`), but the cleanup never reads them: even with both
flags `false`, both DELETE requests are still issued. -/
theorem C8_auto_delete_flags_ignored (modelId : String)
    (opts : Soniox.SonioxProviderOptions) (env : Soniox.Env) (fuel : Nat)
    (fid : String) (created : Soniox.CreateResponse)
    (_hflag1 : opts.autoDeleteTranscription = false)
    (_hflag2 : opts.autoDeleteFile = false)
    (hup : env.uploadResult = .ok fid)
    (hsub : env.submitResult = .ok created) :
    Soniox.Request.deleteTranscription created.id false ∈
      (SonioxCore.doGenerate modelId opts env fuel).trace ∧
    Soniox.Request.deleteFile fid false ∈
      (SonioxCore.doGenerate modelId opts env fuel).trace := by
  obtain ⟨h1, h2⟩ := SonioxCore.attempt_ids modelId opts env fuel fid created hup hsub
  constructor <;>
  · rw [SonioxCore.doGenerate_eq]
    simp [SonioxCore.finalize_trace, h1, h2]

/-- Witness for C8: both auto-delete flags disabled, both deletions issued
anyway. -/
theorem C8_auto_delete_flags_ignored_witness :
    Soniox.Request.deleteTranscription "transcription-123" false ∈
      (SonioxCore.doGenerate "stt-async-v3"
        { autoDeleteTranscription := false, autoDeleteFile := false }
        SonioxWitness.envHello 3).trace ∧
    Soniox.Request.deleteFile "file-123" false ∈
      (SonioxCore.doGenerate "stt-async-v3"
        { autoDeleteTranscription := false, autoDeleteFile := false }
        SonioxWitness.envHello 3).trace :=
  C8_auto_delete_flags_ignored "stt-async-v3"
    { autoDeleteTranscription := false, autoDeleteFile := false }
    SonioxWitness.envHello 3 "file-123"
    { id := "transcription-123", status := some "queued" } rfl rfl rfl rfl
